import Mathlib

set_option maxRecDepth 100000
set_option maxHeartbeats 1000000

/-!
Verification of the E-CLP derived-parameter script
(src/script/interactions/compute_eclp_derived_params.py).

The script computes with Python's decimal module at context precision 200
(round-half-even).  We embed decimal numbers as a coefficient/exponent pair
and model every arithmetic operation as the exact operation followed by
rounding to 200 significant digits with ties to even, which is the value
semantics of the decimal module.
-/

namespace ECLP

/-- Context precision set by the script: getcontext().prec = 200. -/
def prec : Nat := 200

/-- Fuel-driven decimal digit counter (structural recursion so that the
kernel can evaluate it). -/
def ndigitsAux : Nat → Nat → Nat
  | 0, _ => 0
  | fuel+1, n =>
    if n = 0 then 0 else if n < 10 then 1 else if n < 100 then 2
    else if n < 1000 then 3 else if n < 10000 then 4
    else ndigitsAux fuel (n / 10000) + 4

/-- Number of decimal digits of a natural number (0 for 0). -/
def ndigits (n : Nat) : Nat := ndigitsAux n n

/-- Round n / d to the nearest integer, ties to even (ROUND_HALF_EVEN). -/
def rdivHE (n d : Nat) : Nat :=
  if 2*(n % d) < d then n / d
  else if d < 2*(n % d) then n / d + 1
  else if (n / d) % 2 = 0 then n / d else n / d + 1

/-- Bisection refinement step: move from x to x+k when (x+k)^2 still fits
under n. -/
def bstep (k x n : Nat) : Nat := if (x+k)*(x+k) ≤ n then x+k else x

/-- Bisection for the square root: given s with s^2 ≤ n < (s+16)^2,
returns the exact integer square root of n. -/
def bis (s n : Nat) : Nat :=
  bstep 1 (bstep 2 (bstep 4 (bstep 8 s n) n) n) n

/-- Base-256 digit-by-digit square root iteration, tail-recursive with the
accumulator forced to a literal at each step. -/
def sqrtIter : Nat → Nat → Nat → Nat
  | 0, _, r => r
  | i+1, n, r =>
    match bis (16*r) (n / 256^i) with
    | 0 => sqrtIter i n 0
    | m+1 => sqrtIter i n (m+1)

/-- Integer square root (floor of the real square root). -/
def isqrt (n : Nat) : Nat := sqrtIter (ndigits n) n 0

/-- A decimal number: value m * 10^e, mirroring Python Decimal's
coefficient/exponent representation. -/
@[ext]
structure Dec where
  m : Int
  e : Int
deriving DecidableEq

/-- Rational value denoted by a decimal. -/
def val (x : Dec) : ℚ := x.m * 10 ^ x.e

/-- Round a decimal to prec significant digits, half-even: the context
rounding applied by every decimal operation. -/
def roundD (x : Dec) : Dec :=
  ⟨x.m.sign * (rdivHE x.m.natAbs (10^(ndigits x.m.natAbs - prec)) : Nat),
   x.e + ((ndigits x.m.natAbs - prec : Nat) : Int)⟩

/-- Decimal addition: exact sum, then context rounding. -/
def addD (x y : Dec) : Dec :=
  roundD ⟨x.m * 10^(x.e - min x.e y.e).toNat + y.m * 10^(y.e - min x.e y.e).toNat,
          min x.e y.e⟩

/-- Decimal subtraction: exact difference, then context rounding. -/
def subD (x y : Dec) : Dec := addD x ⟨-y.m, y.e⟩

/-- Decimal multiplication: exact product, then context rounding. -/
def mulD (x y : Dec) : Dec := roundD ⟨x.m * y.m, x.e + y.e⟩

/-- Decimal squaring: x ** 2 is the correctly rounded exact square, which
has the same value as the rounded exact product x*x. -/
def sqD (x : Dec) : Dec := mulD x x

/-- Scaling exponent chosen for division so the quotient lands near prec
digits. -/
def divK (a b : Nat) : Int := (prec : Int) + (ndigits b : Int) - (ndigits a : Int)

/-- Scaled dividend for division. -/
def divN (a b : Nat) : Nat := a * 10^((divK a b).toNat)

/-- Scaled divisor for division. -/
def divM (a b : Nat) : Nat := b * 10^((-(divK a b)).toNat)

/-- Decimal division, correctly rounded to prec significant digits
(half-even).  Division by zero is unreachable in the script for valid
inputs (see the safety theorem); that branch returns 0 here. -/
def divD (x y : Dec) : Dec :=
  if y.m = 0 then ⟨0, 0⟩
  else if x.m = 0 then ⟨0, 0⟩
  else if divN x.m.natAbs y.m.natAbs / divM x.m.natAbs y.m.natAbs < 10^prec then
    ⟨(x.m.sign * y.m.sign) * (rdivHE (divN x.m.natAbs y.m.natAbs) (divM x.m.natAbs y.m.natAbs) : Nat),
     x.e - y.e - divK x.m.natAbs y.m.natAbs⟩
  else
    ⟨(x.m.sign * y.m.sign) * (rdivHE (divN x.m.natAbs y.m.natAbs) (divM x.m.natAbs y.m.natAbs * 10) : Nat),
     x.e - y.e - divK x.m.natAbs y.m.natAbs + 1⟩

/-- Scaling exponent chosen for the square root: the even shift putting the
scaled radicand near 2*prec digits. -/
def sqrtE (dm e : Int) : Int :=
  if (2*(prec : Int) - dm - e) % 2 = 0 then 2*(prec : Int) - dm
  else 2*(prec : Int) - dm - 1

/-- Scaled radicand for the square root. -/
def sqrtN (n : Nat) (e : Int) : Nat := n * 10^((sqrtE (ndigits n : Int) e).toNat)

/-- Rounded coefficient of the square root: the integer nearest to the real
square root of the scaled radicand (ties cannot occur). -/
def sqrtR (n : Nat) (e : Int) : Nat :=
  if (2*(isqrt (sqrtN n e))+1)*(2*(isqrt (sqrtN n e))+1) ≤ 4*(sqrtN n e)
  then isqrt (sqrtN n e) + 1 else isqrt (sqrtN n e)

/-- Decimal square root, correctly rounded to prec significant digits.
A negative radicand is unreachable in the script for valid inputs (see the
safety theorem); that branch returns 0 here. -/
def sqrtD (x : Dec) : Dec :=
  if x.m ≤ 0 then ⟨0, 0⟩
  else ⟨(sqrtR x.m.natAbs x.e : Nat), (x.e - sqrtE (ndigits x.m.natAbs : Int) x.e) / 2⟩

/-- Truncation toward zero of a decimal's value, as Python's int(). -/
def truncInt (x : Dec) : Int :=
  if 0 ≤ x.e then x.m * 10^(x.e.toNat)
  else x.m.sign * (x.m.natAbs / 10^((-x.e).toNat) : Nat)

/-- SCALE_38 = Decimal(10) ** 38, which the decimal power operation returns
as the coefficient/exponent pair 1E+38. -/
def SCALE_38 : Dec := ⟨1, 38⟩

/-- to_int38: scale by 1e38 (a context multiplication) and truncate toward
zero (int()). -/
def to_int38 (v : Dec) : Int := truncInt (mulD v SCALE_38)

/-! Script derivation, parameterized by the five base inputs. -/

/-- dSq = c*c + s*s. -/
def dSqOf (c s : Dec) : Dec := addD (mulD c c) (mulD s s)

/-- d = dSq.sqrt(). -/
def dOf (c s : Dec) : Dec := sqrtD (dSqOf c s)

/-- c_over_d = c / d inside compute_tau. -/
def cOverD (c d : Dec) : Dec := divD c d

/-- s_over_d = s / d inside compute_tau. -/
def sOverD (s d : Dec) : Dec := divD s d

/-- term1 = (c_over_d + p * s_over_d) ** 2 / (lam ** 2). -/
def term1Of (c s lam d p : Dec) : Dec :=
  divD (sqD (addD (cOverD c d) (mulD p (sOverD s d)))) (sqD lam)

/-- term2 = (p * c_over_d - s_over_d) ** 2. -/
def term2Of (c s d p : Dec) : Dec :=
  sqD (subD (mulD p (cOverD c d)) (sOverD s d))

/-- The radicand term1 + term2 of the dFactor denominator. -/
def radicandOf (c s lam d p : Dec) : Dec :=
  addD (term1Of c s lam d p) (term2Of c s d p)

/-- dFactor = Decimal(1) / (term1 + term2).sqrt(). -/
def dFactorOf (c s lam d p : Dec) : Dec :=
  divD ⟨1, 0⟩ (sqrtD (radicandOf c s lam d p))

/-- compute_tau(p): tau_x = (p*c - s) * dFactor,
tau_y = (c + s*p) * dFactor / lam. -/
def compute_tau (c s lam d p : Dec) : Dec × Dec :=
  (mulD (subD (mulD p c) s) (dFactorOf c s lam d p),
   divD (mulD (addD c (mulD s p)) (dFactorOf c s lam d p)) lam)

/-- u = s * c * (tauBeta_x - tauAlpha_x). -/
def uOf (c s : Dec) (tA tB : Dec × Dec) : Dec :=
  mulD (mulD s c) (subD tB.1 tA.1)

/-- v = s * s * tauBeta_y + c * c * tauAlpha_y. -/
def vOf (c s : Dec) (tA tB : Dec × Dec) : Dec :=
  addD (mulD (mulD s s) tB.2) (mulD (mulD c c) tA.2)

/-- w = s * c * (tauBeta_y - tauAlpha_y). -/
def wOf (c s : Dec) (tA tB : Dec × Dec) : Dec :=
  mulD (mulD s c) (subD tB.2 tA.2)

/-- z = c * c * tauBeta_x + s * s * tauAlpha_x. -/
def zOf (c s : Dec) (tA tB : Dec × Dec) : Dec :=
  addD (mulD (mulD c c) tB.1) (mulD (mulD s s) tA.1)

/-! The script's hard-coded inputs. -/

/-- alpha = Decimal("1035905000000000000") / Decimal("1000000000000000000"). -/
def alpha : Dec := divD ⟨1035905000000000000, 0⟩ ⟨1000000000000000000, 0⟩

/-- beta = Decimal("1144947000000000000") / Decimal("1000000000000000000"). -/
def beta : Dec := divD ⟨1144947000000000000, 0⟩ ⟨1000000000000000000, 0⟩

/-- c = Decimal("1000000000000000000") / Decimal("1000000000000000000"). -/
def c : Dec := divD ⟨1000000000000000000, 0⟩ ⟨1000000000000000000, 0⟩

/-- s = Decimal("0") / Decimal("1000000000000000000"). -/
def s : Dec := divD ⟨0, 0⟩ ⟨1000000000000000000, 0⟩

/-- lam = Decimal("50000000000000000000") / Decimal("1000000000000000000"). -/
def lam : Dec := divD ⟨50000000000000000000, 0⟩ ⟨1000000000000000000, 0⟩

/-- dSq of the script run. -/
def dSq : Dec := dSqOf c s

/-- d of the script run. -/
def d : Dec := dOf c s

/-- tauAlpha = compute_tau(alpha). -/
def tauAlpha : Dec × Dec := compute_tau c s lam d alpha

/-- tauBeta = compute_tau(beta). -/
def tauBeta : Dec × Dec := compute_tau c s lam d beta

/-- Shape coefficient u of the script run. -/
def u : Dec := uOf c s tauAlpha tauBeta

/-- Shape coefficient v of the script run. -/
def v : Dec := vOf c s tauAlpha tauBeta

/-- Shape coefficient w of the script run. -/
def w : Dec := wOf c s tauAlpha tauBeta

/-- Shape coefficient z of the script run. -/
def z : Dec := zOf c s tauAlpha tauBeta

/-- The nine scaled integer outputs of a run on arbitrary inputs, in the
order the script prints them. -/
def deriveAll (al be cc ss la : Dec) : List Int :=
  let dd := dOf cc ss
  let tA := compute_tau cc ss la dd al
  let tB := compute_tau cc ss la dd be
  [to_int38 tA.1, to_int38 tA.2, to_int38 tB.1, to_int38 tB.2,
   to_int38 (uOf cc ss tA tB), to_int38 (vOf cc ss tA tB),
   to_int38 (wOf cc ss tA tB), to_int38 (zOf cc ss tA tB),
   to_int38 (dSqOf cc ss)]

/-- tauAlpha_x_38 of the script run. -/
def tauAlpha_x_38 : Int := to_int38 tauAlpha.1

/-- tauAlpha_y_38 of the script run. -/
def tauAlpha_y_38 : Int := to_int38 tauAlpha.2

/-- tauBeta_x_38 of the script run. -/
def tauBeta_x_38 : Int := to_int38 tauBeta.1

/-- tauBeta_y_38 of the script run. -/
def tauBeta_y_38 : Int := to_int38 tauBeta.2

/-- u_38 of the script run. -/
def u_38 : Int := to_int38 u

/-- v_38 of the script run. -/
def v_38 : Int := to_int38 v

/-- w_38 of the script run. -/
def w_38 : Int := to_int38 w

/-- z_38 of the script run. -/
def z_38 : Int := to_int38 z

/-- dSq_38 of the script run. -/
def dSq_38 : Int := to_int38 dSq

/-- Sanity check |tauAlpha| = (tauAlpha_x**2 + (tauAlpha_y * lam)**2).sqrt(). -/
def sanityAlpha : Dec := sqrtD (addD (sqD tauAlpha.1) (sqD (mulD tauAlpha.2 lam)))

/-- Sanity check |tauBeta| = (tauBeta_x**2 + (tauBeta_y * lam)**2).sqrt(). -/
def sanityBeta : Dec := sqrtD (addD (sqD tauBeta.1) (sqD (mulD tauBeta.2 lam)))

/-- The printed Solidity-constants section of the report: one line per
scaled output, a pure function of the nine integers. -/
def constantsReport (al be cc ss la : Dec) : List String :=
  List.zipWith
    (fun name n => "    int256 internal constant " ++ name ++ " = " ++ toString n ++ ";")
    ["TAU_ALPHA_X", "TAU_ALPHA_Y", "TAU_BETA_X", "TAU_BETA_Y",
     "U", "V", "W", "Z", "D_SQ"]
    (deriveAll al be cc ss la)

/-! Basic facts about the digit counter. -/

lemma ndigitsAux_bounds : ∀ fuel n, n ≤ fuel → 1 ≤ n →
    10 ^ (ndigitsAux fuel n - 1) ≤ n ∧ n < 10 ^ ndigitsAux fuel n := by
  intro fuel
  induction fuel with
  | zero => intro n h1 h2; omega
  | succ f ih =>
    intro n hle hpos
    have hne : n ≠ 0 := by omega
    by_cases h10 : n < 10
    · have hv : ndigitsAux (f+1) n = 1 := by
        simp [ndigitsAux, hne, h10]
      rw [hv]; simpa using ⟨hpos, h10⟩
    · by_cases h100 : n < 100
      · have hv : ndigitsAux (f+1) n = 2 := by
          simp [ndigitsAux, hne, h10, h100]
        rw [hv]
        constructor
        · simpa using by omega
        · simpa using h100
      · by_cases h1000 : n < 1000
        · have hv : ndigitsAux (f+1) n = 3 := by
            simp [ndigitsAux, hne, h10, h100, h1000]
          rw [hv]
          constructor
          · simpa using by omega
          · simpa using h1000
        · by_cases h10000 : n < 10000
          · have hv : ndigitsAux (f+1) n = 4 := by
              simp [ndigitsAux, hne, h10, h100, h1000, h10000]
            rw [hv]
            constructor
            · simpa using by omega
            · simpa using h10000
          · have hrec : ndigitsAux (f+1) n = ndigitsAux f (n / 10000) + 4 := by
              simp [ndigitsAux, hne, h10, h100, h1000, h10000]
            have hq1 : 1 ≤ n / 10000 := Nat.one_le_div_iff (by norm_num) |>.2 (by omega)
            have hqf : n / 10000 ≤ f := by
              have : n / 10000 < n := Nat.div_lt_self (by omega) (by norm_num)
              omega
            obtain ⟨ihl, ihu⟩ := ih (n / 10000) hqf hq1
            set dq := ndigitsAux f (n / 10000) with hdq
            have hdq1 : 1 ≤ dq := by
              by_contra hc
              push_neg at hc
              interval_cases dq
              · simp at ihu; omega
            rw [hrec]
            constructor
            · have h1 : 10 ^ (dq + 4 - 1) = 10 ^ (dq - 1) * 10000 := by
                have : dq + 4 - 1 = dq - 1 + 4 := by omega
                rw [this, pow_add]; norm_num
              rw [h1]
              calc 10 ^ (dq - 1) * 10000 ≤ n / 10000 * 10000 :=
                    Nat.mul_le_mul_right _ ihl
                _ ≤ n := Nat.div_mul_le_self n 10000
            · have h2 : 10 ^ (dq + 4) = 10 ^ dq * 10000 := by
                rw [pow_add]; norm_num
              rw [h2]
              have : n < (n / 10000 + 1) * 10000 := by omega
              calc n < (n / 10000 + 1) * 10000 := this
                _ ≤ 10 ^ dq * 10000 := Nat.mul_le_mul_right _ (by omega)

lemma ndigits_lb (n : Nat) (h : 1 ≤ n) : 10 ^ (ndigits n - 1) ≤ n :=
  (ndigitsAux_bounds n n le_rfl h).1

lemma ndigits_ub (n : Nat) (h : 1 ≤ n) : n < 10 ^ ndigits n :=
  (ndigitsAux_bounds n n le_rfl h).2

lemma ndigits_pos (n : Nat) (h : 1 ≤ n) : 1 ≤ ndigits n := by
  by_contra hc
  push_neg at hc
  have h0 : ndigits n = 0 := by omega
  have := ndigits_ub n h
  rw [h0] at this
  simp at this
  omega

/-! Correctness of the integer square root. -/

lemma bstep_spec (k x n : Nat) (h1 : x*x ≤ n) (h2 : n < (x+2*k)*(x+2*k)) :
    (bstep k x n)*(bstep k x n) ≤ n ∧ n < (bstep k x n + k)*(bstep k x n + k) := by
  unfold bstep
  split
  · next h => exact ⟨h, by nlinarith⟩
  · next h => exact ⟨h1, by omega⟩

lemma bis_spec (s n : Nat) (h1 : s*s ≤ n) (h2 : n < (s+16)*(s+16)) :
    (bis s n)*(bis s n) ≤ n ∧ n < (bis s n + 1)*(bis s n + 1) := by
  have s8 := bstep_spec 8 s n h1 (by nlinarith)
  have s4 := bstep_spec 4 (bstep 8 s n) n s8.1 (by nlinarith [s8.2])
  have s2 := bstep_spec 2 (bstep 4 (bstep 8 s n) n) n s4.1 (by nlinarith [s4.2])
  have s1 := bstep_spec 1 (bstep 2 (bstep 4 (bstep 8 s n) n) n) n s2.1 (by nlinarith [s2.2])
  exact s1

lemma sqrtIter_succ (i n r : Nat) :
    sqrtIter (i+1) n r = sqrtIter i n (bis (16*r) (n / 256^i)) := by
  show (match bis (16*r) (n / 256^i) with
        | 0 => sqrtIter i n 0
        | m+1 => sqrtIter i n (m+1)) = _
  cases h : bis (16*r) (n / 256^i) with
  | zero => simp
  | succ m => simp

lemma sqrtIter_spec : ∀ i n r, r*r ≤ n / 256^i → n / 256^i < (r+1)*(r+1) →
    (sqrtIter i n r)*(sqrtIter i n r) ≤ n ∧
      n < (sqrtIter i n r + 1)*(sqrtIter i n r + 1) := by
  intro i
  induction i with
  | zero =>
    intro n r h1 h2
    simp only [pow_zero, Nat.div_one] at h1 h2
    simpa [sqrtIter] using ⟨h1, h2⟩
  | succ i ih =>
    intro n r h1 h2
    rw [sqrtIter_succ]
    set q := n / 256^i with hq
    have hdd : n / 256^(i+1) = q / 256 := by
      rw [hq, Nat.div_div_eq_div_mul, ← pow_succ]
    rw [hdd] at h1 h2
    have hb1 : (16*r)*(16*r) ≤ q := by
      have h256 : 256 * (r*r) ≤ 256 * (q / 256) := by omega
      have : 256 * (q / 256) ≤ q := by
        have := Nat.div_mul_le_self q 256
        omega
      nlinarith
    have hb2 : q < (16*r+16)*(16*r+16) := by
      have : q < (q / 256 + 1) * 256 := by omega
      nlinarith
    obtain ⟨hc1, hc2⟩ := bis_spec (16*r) q hb1 hb2
    exact ih n (bis (16*r) q) hc1 hc2

lemma isqrt_spec (n : Nat) :
    (isqrt n)*(isqrt n) ≤ n ∧ n < (isqrt n + 1)*(isqrt n + 1) := by
  unfold isqrt
  apply sqrtIter_spec
  · simp
  · rcases Nat.eq_zero_or_pos n with h | h
    · subst h; simp [ndigits, ndigitsAux]
    · have hub := ndigits_ub n h
      have hpow : (10:Nat) ^ ndigits n ≤ 256 ^ ndigits n :=
        Nat.pow_le_pow_left (by norm_num) _
      have : n / 256 ^ ndigits n = 0 := Nat.div_eq_of_lt (by omega)
      rw [this]; norm_num

lemma isqrt_le (n : Nat) : (isqrt n)*(isqrt n) ≤ n := (isqrt_spec n).1

lemma lt_succ_isqrt (n : Nat) : n < (isqrt n + 1)*(isqrt n + 1) := (isqrt_spec n).2

lemma isqrt_pos (n : Nat) (h : 1 ≤ n) : 1 ≤ isqrt n := by
  by_contra hc
  push_neg at hc
  have h0 : isqrt n = 0 := by omega
  have := lt_succ_isqrt n
  rw [h0] at this
  omega

/-! Characterization of half-even rounding of a quotient. -/

lemma rdivHE_char (n d : Nat) (hd : 0 < d) :
    (2*n ≤ 2*(rdivHE n d)*d + d) ∧ (2*(rdivHE n d)*d ≤ 2*n + d) ∧
      ((2*(rdivHE n d)*d = 2*n + d ∨ 2*n = 2*(rdivHE n d)*d + d) → rdivHE n d % 2 = 0) := by
  simp only [rdivHE]
  have hmod := Nat.div_add_mod n d
  set q := n / d with hqdef
  set r := n % d with hrdef
  have hn : q * d + r = n := by rw [mul_comm] at hmod; exact hmod
  have hr : r < d := Nat.mod_lt _ hd
  split
  · next h =>
    refine ⟨by nlinarith, by nlinarith, ?_⟩
    rintro (h1 | h1)
    · exfalso; nlinarith
    · exfalso; nlinarith
  · next h =>
    split
    · next h2 =>
      refine ⟨by nlinarith, by nlinarith, ?_⟩
      rintro (h1 | h1)
      · exfalso; nlinarith
      · exfalso; nlinarith
    · next h2 =>
      have hreq : 2*r = d := by omega
      split
      · next h3 =>
        refine ⟨by nlinarith, by nlinarith, fun _ => h3⟩
      · next h3 =>
        have h4 : (q+1) % 2 = 0 := by omega
        refine ⟨by nlinarith, by nlinarith, fun _ => h4⟩

lemma rdivHE_ge_div (n d : Nat) (hd : 0 < d) : n / d ≤ rdivHE n d := by
  simp only [rdivHE]
  split
  · exact le_rfl
  · split
    · omega
    · split <;> omega

lemma rdivHE_le_div_succ (n d : Nat) (hd : 0 < d) : rdivHE n d ≤ n / d + 1 := by
  simp only [rdivHE]
  split
  · omega
  · split
    · omega
    · split <;> omega

lemma rdivHE_exact (n d : Nat) (hd : 0 < d) (hdvd : d ∣ n) : rdivHE n d = n / d := by
  obtain ⟨t, rfl⟩ := hdvd
  have h0 : d * t % d = 0 := Nat.mul_mod_right d t
  simp [rdivHE, h0, hd]

/-! Power and cast helpers. -/

lemma q10 (a : Int) (h : 0 ≤ a) : ((10:ℚ) ^ a.toNat) = (10:ℚ) ^ a := by
  rw [← zpow_natCast, Int.toNat_of_nonneg h]

lemma q10_merge (a b : Int) : (10:ℚ) ^ a * (10:ℚ) ^ b = (10:ℚ) ^ (a+b) :=
  (zpow_add₀ (by norm_num) a b).symm

lemma q10_pos (a : Int) : (0:ℚ) < (10:ℚ) ^ a := zpow_pos (by norm_num) _

lemma q10nat (k : Nat) : ((10 ^ k : Nat) : ℚ) = (10:ℚ) ^ (k : Int) := by
  rw [← q10 (k:Int) (Int.natCast_nonneg k), Int.toNat_natCast]
  push_cast
  ring

/-! Bounds on the rounded coefficient produced by roundD. -/

lemma roundCoeff_bounds (n : Nat) (hn : 1 ≤ n) :
    10 ^ (min (ndigits n) prec - 1) ≤ rdivHE n (10 ^ (ndigits n - prec)) ∧
      rdivHE n (10 ^ (ndigits n - prec)) ≤ 10 ^ (min (ndigits n) prec) := by
  have hdg1 := ndigits_lb n hn
  have hdg2 := ndigits_ub n hn
  have hpos := ndigits_pos n hn
  set dg := ndigits n with hdg
  set k := dg - prec with hk
  have hkdg : k ≤ dg - 1 := by
    have : (0:Nat) < prec := by norm_num [prec]
    omega
  have hdpos : (0:Nat) < 10 ^ k := pow_pos (by norm_num) _
  have hJ : (0:Nat) < 10 ^ (dg - k) := pow_pos (by norm_num) _
  have hlow : 10 ^ (dg - 1 - k) ≤ n / 10 ^ k := by
    have h1 : 10 ^ (dg - 1) / 10 ^ k ≤ n / 10 ^ k := Nat.div_le_div_right hdg1
    rwa [Nat.pow_div (by omega) (by norm_num)] at h1
  have hup : n / 10 ^ k ≤ 10 ^ (dg - k) - 1 := by
    have hsplit : 10 ^ (dg - k) * 10 ^ k = 10 ^ dg := by
      rw [← pow_add]
      congr 1
      omega
    have hDg : (0:Nat) < 10 ^ dg := pow_pos (by norm_num) _
    have h2 : n / 10 ^ k ≤ (10 ^ dg - 1) / 10 ^ k := Nat.div_le_div_right (by omega)
    have h3 : (10 ^ dg - 1) / 10 ^ k = 10 ^ (dg - k) - 1 := by
      have hub2 : (10 ^ dg - 1) / 10 ^ k < 10 ^ (dg - k) := by
        rw [Nat.div_lt_iff_lt_mul hdpos, hsplit]
        omega
      have hlb2 : 10 ^ (dg - k) - 1 ≤ (10 ^ dg - 1) / 10 ^ k := by
        rw [Nat.le_div_iff_mul_le hdpos, Nat.sub_mul, one_mul, hsplit]
        omega
      omega
    omega
  constructor
  · have heq : dg - 1 - k = min dg prec - 1 := by
      have : (0:Nat) < prec := by norm_num [prec]
      omega
    calc 10 ^ (min dg prec - 1) = 10 ^ (dg - 1 - k) := by rw [heq]
      _ ≤ n / 10 ^ k := hlow
      _ ≤ rdivHE n (10 ^ k) := rdivHE_ge_div n _ hdpos
  · have heq2 : dg - k = min dg prec := by
      have : (0:Nat) < prec := by norm_num [prec]
      omega
    calc rdivHE n (10 ^ k) ≤ n / 10 ^ k + 1 := rdivHE_le_div_succ n _ hdpos
      _ ≤ 10 ^ (dg - k) := by omega
      _ = 10 ^ (min dg prec) := by rw [heq2]

/-! Structural facts about roundD. -/

lemma roundD_m_def (x : Dec) :
    (roundD x).m = x.m.sign * (rdivHE x.m.natAbs (10 ^ (ndigits x.m.natAbs - prec)) : Nat) := rfl

lemma roundD_e_def (x : Dec) :
    (roundD x).e = x.e + ((ndigits x.m.natAbs - prec : Nat) : Int) := rfl

lemma roundD_zero (e : Int) : roundD ⟨0, e⟩ = ⟨0, e⟩ := by
  have h : ndigits 0 = 0 := rfl
  simp [roundD, h, rdivHE]

lemma roundD_pos (x : Dec) (h : 0 < x.m) : 0 < (roundD x).m := by
  rw [roundD_m_def]
  have hs : x.m.sign = 1 := Int.sign_eq_one_of_pos h
  rw [hs, one_mul]
  have hn : 1 ≤ x.m.natAbs := Int.natAbs_pos.2 (ne_of_gt h)
  have := (roundCoeff_bounds x.m.natAbs hn).1
  have hp : (0:Nat) < 10 ^ (min (ndigits x.m.natAbs) prec - 1) := pow_pos (by norm_num) _
  exact_mod_cast Nat.lt_of_lt_of_le hp this

lemma roundD_neg (x : Dec) (h : x.m < 0) : (roundD x).m < 0 := by
  rw [roundD_m_def]
  have hs : x.m.sign = -1 := Int.sign_eq_neg_one_of_neg h
  rw [hs]
  have hn : 1 ≤ x.m.natAbs := Int.natAbs_pos.2 (ne_of_lt h)
  have hlow := (roundCoeff_bounds x.m.natAbs hn).1
  have hp : (0:Nat) < 10 ^ (min (ndigits x.m.natAbs) prec - 1) := pow_pos (by norm_num) _
  have : (0:Int) < (rdivHE x.m.natAbs (10 ^ (ndigits x.m.natAbs - prec)) : Nat) := by
    exact_mod_cast Nat.lt_of_lt_of_le hp hlow
  omega

lemma roundD_m_zero (x : Dec) (h : x.m = 0) : (roundD x).m = 0 := by
  rw [roundD_m_def, h]
  simp

lemma roundD_m_zero_iff (x : Dec) : (roundD x).m = 0 ↔ x.m = 0 := by
  constructor
  · intro h
    rcases lt_trichotomy x.m 0 with h1 | h1 | h1
    · have := roundD_neg x h1; omega
    · exact h1
    · have := roundD_pos x h1; omega
  · exact roundD_m_zero x

lemma roundD_coeff_le (x : Dec) : (roundD x).m.natAbs ≤ 10 ^ prec := by
  rcases eq_or_ne x.m 0 with h | h
  · rw [roundD_m_zero x h]
    positivity
  · rw [roundD_m_def]
    have hn : 1 ≤ x.m.natAbs := Int.natAbs_pos.2 h
    have hup := (roundCoeff_bounds x.m.natAbs hn).2
    have hmin : 10 ^ (min (ndigits x.m.natAbs) prec) ≤ 10 ^ prec :=
      Nat.pow_le_pow_right (by norm_num) (min_le_right _ _)
    calc (x.m.sign * (rdivHE x.m.natAbs (10 ^ (ndigits x.m.natAbs - prec)) : Nat)).natAbs
        ≤ (rdivHE x.m.natAbs (10 ^ (ndigits x.m.natAbs - prec)) : Int).natAbs := by
          rw [Int.natAbs_mul]
          have := Int.natAbs_sign_of_nonzero h
          simp [this]
      _ ≤ 10 ^ prec := by
          rw [Int.natAbs_ofNat]
          omega

/-! Value lemmas. -/

lemma val_pos_iff (x : Dec) : 0 < val x ↔ 0 < x.m := by
  have h10 := q10_pos x.e
  simp only [val]
  constructor
  · intro h
    by_contra hc
    push_neg at hc
    have hc2 : (x.m : ℚ) ≤ 0 := by exact_mod_cast hc
    nlinarith
  · intro h
    have h2 : (0:ℚ) < (x.m : ℚ) := by exact_mod_cast h
    exact mul_pos h2 h10

lemma val_neg_iff (x : Dec) : val x < 0 ↔ x.m < 0 := by
  have h10 := q10_pos x.e
  simp only [val]
  constructor
  · intro h
    by_contra hc
    push_neg at hc
    have hc2 : (0:ℚ) ≤ (x.m : ℚ) := by exact_mod_cast hc
    nlinarith
  · intro h
    have h2 : (x.m : ℚ) < 0 := by exact_mod_cast h
    exact mul_neg_of_neg_of_pos h2 h10

lemma val_eq_zero_iff (x : Dec) : val x = 0 ↔ x.m = 0 := by
  have h10 := q10_pos x.e
  simp only [val]
  constructor
  · intro h
    rcases mul_eq_zero.1 h with h1 | h1
    · exact_mod_cast h1
    · exact absurd h1 (ne_of_gt h10)
  · intro h
    rw [h]
    simp

lemma val_addD_exact (x y : Dec) :
    val (⟨x.m * 10 ^ (x.e - min x.e y.e).toNat + y.m * 10 ^ (y.e - min x.e y.e).toNat,
          min x.e y.e⟩ : Dec) = val x + val y := by
  simp only [val]
  push_cast
  rw [q10 (x.e - min x.e y.e) (by omega), q10 (y.e - min x.e y.e) (by omega)]
  rw [add_mul, mul_assoc, mul_assoc, q10_merge, q10_merge,
    show x.e - min x.e y.e + min x.e y.e = x.e by omega,
    show y.e - min x.e y.e + min x.e y.e = y.e by omega]

lemma val_mulD_exact (x y : Dec) :
    val (⟨x.m * y.m, x.e + y.e⟩ : Dec) = val x * val y := by
  simp only [val]
  push_cast
  rw [← q10_merge]
  ring

lemma val_neg_mk (y : Dec) : val (⟨-y.m, y.e⟩ : Dec) = -val y := by
  simp only [val]
  push_cast
  ring

/-! Rounding is the identity when the coefficient already fits, and is
value-preserving when only trailing zeros are dropped. -/

lemma roundD_eq_self (x : Dec) (h : ndigits x.m.natAbs ≤ prec) : roundD x = x := by
  obtain ⟨m, e⟩ := x
  have hk : ndigits (Dec.mk m e).m.natAbs - prec = 0 := by
    simp only [Dec.mk.injEq] at h ⊢
    omega
  ext
  · show m.sign * (rdivHE m.natAbs (10 ^ (ndigits m.natAbs - prec)) : Nat) = m
    rw [show ndigits m.natAbs - prec = 0 from hk]
    simp [rdivHE, Nat.mod_one, Int.sign_mul_abs, Int.sign_mul_natAbs]
  · show e + ((ndigits m.natAbs - prec : Nat) : Int) = e
    rw [show ndigits m.natAbs - prec = 0 from hk]
    simp

lemma roundD_val_exact (x : Dec)
    (h : 10 ^ (ndigits x.m.natAbs - prec) ∣ x.m.natAbs) : val (roundD x) = val x := by
  set k := ndigits x.m.natAbs - prec with hk
  have hdpos : (0:Nat) < 10 ^ k := pow_pos (by norm_num) _
  have hq := rdivHE_exact x.m.natAbs (10 ^ k) hdpos h
  rw [val, val, roundD_m_def, roundD_e_def, ← hk, hq]
  rw [Int.cast_mul, Int.cast_natCast, ← q10_merge]
  have key : ((x.m.natAbs / 10 ^ k : Nat) : ℚ) * (10:ℚ) ^ ((k:ℕ) : Int) =
      ((x.m.natAbs : ℕ) : ℚ) := by
    rw [← q10nat, ← Nat.cast_mul, Nat.div_mul_cancel h]
  have hsgn : ((x.m.sign : ℤ) : ℚ) * ((x.m.natAbs : ℕ) : ℚ) = ((x.m : ℤ) : ℚ) := by
    have h2 : (x.m.sign * (x.m.natAbs : ℤ)) = x.m := Int.sign_mul_natAbs x.m
    calc ((x.m.sign : ℤ) : ℚ) * ((x.m.natAbs : ℕ) : ℚ)
        = (((x.m.sign * (x.m.natAbs : ℤ)) : ℤ) : ℚ) := by
          rw [Int.cast_mul, Int.cast_natCast]
      _ = ((x.m : ℤ) : ℚ) := by rw [h2]
  linear_combination (((x.m.sign:ℤ):ℚ) * (10:ℚ) ^ x.e) * key + ((10:ℚ) ^ x.e) * hsgn

/-! Zero propagation through the operations. -/

lemma mulD_m_zero_left (x y : Dec) (h : x.m = 0) : (mulD x y).m = 0 := by
  apply roundD_m_zero
  show x.m * y.m = 0
  rw [h, zero_mul]

lemma truncInt_zero (x : Dec) (h : x.m = 0) : truncInt x = 0 := by
  unfold truncInt
  split
  · rw [h, zero_mul]
  · rw [h]
    simp

lemma to_int38_zero (x : Dec) (h : x.m = 0) : to_int38 x = 0 :=
  truncInt_zero _ (mulD_m_zero_left _ _ h)

/-! Evaluation of the script run: the tau pairs, computed once and reused. -/

lemma tauAlpha_eval : tauAlpha = ((⟨99981367602332163269692323144458353703985566859965583292150726601576629094927266175395651222802010375102616677292628880143886546900699210471797981525968035667436069341766871244484804985334618596905736, -200⟩ : Dec), (⟨19303192397436475983742200905383863134937193441476888960310207326265753924332301934134047277076954040206894778438684798344227809866869879085784503699850475799892088433160737952705084922909845709192587, -201⟩ : Dec)) := by decide

lemma tauBeta_eval : tauBeta = ((⟨99984746838998994989324367248967173323312589161025011550728224419984813631587525544488026753697720319072492003904297725699243211819635145337116104582951757118678476045532260791494487522626718963637398, -200⟩ : Dec), (⟨17465393042472532787862559096441524948021627055405186711826525493317125357171559127975011376718349464048989517227312308028099678294215390814966300550672084754784016386004288546368432341868526484394020, -201⟩ : Dec)) := by decide

/-! The reference algorithm of the specification, stated verbatim over the
same decimal arithmetic: cOverD = c/d, sOverD = s/d,
term1 = (cOverD + p*sOverD)^2 / lambda^2, term2 = (p*cOverD - sOverD)^2,
dFactor = 1/sqrt(term1 + term2), tau.x = (p*c - s)*dFactor,
tau.y = (c + s*p)*dFactor/lambda, and the shape coefficients
u = s*c*(tauBeta.x - tauAlpha.x), v = s^2*tauBeta.y + c^2*tauAlpha.y,
w = s*c*(tauBeta.y - tauAlpha.y), z = c^2*tauBeta.x + s^2*tauAlpha.x. -/

/-- Modelled from the spec (section 4.1 step 2): the tau pair of the
reference algorithm at price bound p, with d supplied by the caller. -/
def specTau (c s lam d p : Dec) : Dec × Dec :=
  (mulD (subD (mulD p c) s)
     (divD ⟨1, 0⟩ (sqrtD (addD
        (divD (sqD (addD (divD c d) (mulD p (divD s d)))) (sqD lam))
        (sqD (subD (mulD p (divD c d)) (divD s d)))))),
   divD (mulD (addD c (mulD s p))
     (divD ⟨1, 0⟩ (sqrtD (addD
        (divD (sqD (addD (divD c d) (mulD p (divD s d)))) (sqD lam))
        (sqD (subD (mulD p (divD c d)) (divD s d))))))) lam)

/-- Modelled from the spec (section 4.1 step 3): u = s*c*(tauBeta.x - tauAlpha.x). -/
def specU (c s : Dec) (tA tB : Dec × Dec) : Dec := mulD (mulD s c) (subD tB.1 tA.1)

/-- Modelled from the spec (section 4.1 step 3): v = s^2*tauBeta.y + c^2*tauAlpha.y. -/
def specV (c s : Dec) (tA tB : Dec × Dec) : Dec :=
  addD (mulD (mulD s s) tB.2) (mulD (mulD c c) tA.2)

/-- Modelled from the spec (section 4.1 step 3): w = s*c*(tauBeta.y - tauAlpha.y). -/
def specW (c s : Dec) (tA tB : Dec × Dec) : Dec := mulD (mulD s c) (subD tB.2 tA.2)

/-- Modelled from the spec (section 4.1 step 3): z = c^2*tauBeta.x + s^2*tauAlpha.x. -/
def specZ (c s : Dec) (tA tB : Dec × Dec) : Dec :=
  addD (mulD (mulD c c) tB.1) (mulD (mulD s s) tA.1)

/-- C1: for every price bound p and inputs c, s, lambda with d = sqrt(c*c+s*s)
as set up by the program, compute_tau returns exactly the pair given by the
reference algorithm of the spec (tau.x = (p*c-s)*dFactor,
tau.y = (c+s*p)*dFactor/lambda with the stated dFactor), and the four shape
coefficients u, v, w, z match the spec formulas, over the program's
200-digit decimal arithmetic. -/
theorem compute_tau_refines_spec (cc ss la p : Dec) :
    compute_tau cc ss la (dOf cc ss) p = specTau cc ss la (sqrtD (dSqOf cc ss)) p ∧
    ∀ tA tB : Dec × Dec,
      uOf cc ss tA tB = specU cc ss tA tB ∧ vOf cc ss tA tB = specV cc ss tA tB ∧
      wOf cc ss tA tB = specW cc ss tA tB ∧ zOf cc ss tA tB = specZ cc ss tA tB :=
  ⟨rfl, fun _ _ => ⟨rfl, rfl, rfl, rfl⟩⟩

/-- C3: for the hard-coded inputs (alpha=1.035905, beta=1.144947, c=1, s=0,
lambda=50) the scaled output for dSq equals exactly 10^38. -/
theorem dSq_38_eq_one_e38 : dSq_38 = 100000000000000000000000000000000000000 := by
  decide

/-- C4: whenever the input s is zero, the scaled outputs for u and w are
exactly 0, for any values of the remaining inputs. -/
theorem u38_w38_zero_of_s_zero (al be cc la ss : Dec) (hs : ss.m = 0) :
    to_int38 (uOf cc ss (compute_tau cc ss la (dOf cc ss) al)
        (compute_tau cc ss la (dOf cc ss) be)) = 0 ∧
    to_int38 (wOf cc ss (compute_tau cc ss la (dOf cc ss) al)
        (compute_tau cc ss la (dOf cc ss) be)) = 0 := by
  constructor
  · exact to_int38_zero _ (mulD_m_zero_left _ _ (mulD_m_zero_left _ _ hs))
  · exact to_int38_zero _ (mulD_m_zero_left _ _ (mulD_m_zero_left _ _ hs))

/-- Witness for C4 at the program's hard-coded inputs: s = 0 there, and the
scaled u and w outputs are 0. -/
theorem u38_w38_zero_of_s_zero_witness : s.m = 0 ∧ u_38 = 0 ∧ w_38 = 0 :=
  ⟨by decide,
   (u38_w38_zero_of_s_zero alpha beta c lam s (by decide)).1,
   (u38_w38_zero_of_s_zero alpha beta c lam s (by decide)).2⟩

/-- C8: for the hard-coded inputs, each of the nine scaled integer outputs
lies in the signed 256-bit range from -(2^255) to 2^255 - 1. -/
theorem scaled_outputs_in_int256_range :
    (-(2^255) ≤ tauAlpha_x_38 ∧ tauAlpha_x_38 ≤ 2^255 - 1) ∧
    (-(2^255) ≤ tauAlpha_y_38 ∧ tauAlpha_y_38 ≤ 2^255 - 1) ∧
    (-(2^255) ≤ tauBeta_x_38 ∧ tauBeta_x_38 ≤ 2^255 - 1) ∧
    (-(2^255) ≤ tauBeta_y_38 ∧ tauBeta_y_38 ≤ 2^255 - 1) ∧
    (-(2^255) ≤ u_38 ∧ u_38 ≤ 2^255 - 1) ∧
    (-(2^255) ≤ v_38 ∧ v_38 ≤ 2^255 - 1) ∧
    (-(2^255) ≤ w_38 ∧ w_38 ≤ 2^255 - 1) ∧
    (-(2^255) ≤ z_38 ∧ z_38 ≤ 2^255 - 1) ∧
    (-(2^255) ≤ dSq_38 ∧ dSq_38 ≤ 2^255 - 1) := by
  have hA := tauAlpha_eval
  have hB := tauBeta_eval
  refine ⟨?_, ?_, ?_, ?_, ?_, ?_, ?_, ?_, ?_⟩
  · unfold tauAlpha_x_38
    rw [hA]
    decide
  · unfold tauAlpha_y_38
    rw [hA]
    decide
  · unfold tauBeta_x_38
    rw [hB]
    decide
  · unfold tauBeta_y_38
    rw [hB]
    decide
  · unfold u_38 u
    rw [hA, hB]
    decide
  · unfold v_38 v
    rw [hA, hB]
    decide
  · unfold w_38 w
    rw [hA, hB]
    decide
  · unfold z_38 z
    rw [hA, hB]
    decide
  · unfold dSq_38
    decide

/-- C9: the computation is deterministic: the nine scaled constants and the
rendered constants section are pure functions of the five inputs, so two
runs on identical inputs give identical results. -/
theorem derivation_deterministic (al be cc ss la : Dec) :
    deriveAll al be cc ss la = deriveAll al be cc ss la ∧
    constantsReport al be cc ss la = constantsReport al be cc ss la :=
  ⟨rfl, rfl⟩

/-! Exact-arithmetic (rational) counterparts of the compute_tau formulas,
for the algebraic identity of claim C10. -/

/-- Exact-arithmetic tau.x = (p*c - s) * dFactor, with dFactor passed as f. -/
def tauXQ (c s f p : ℚ) : ℚ := (p*c - s) * f

/-- Exact-arithmetic tau.y = (c + s*p) * dFactor / lam. -/
def tauYQ (c s lam f p : ℚ) : ℚ := (c + s*p) * f / lam

/-- Exact-arithmetic term1 = (c/d + p*(s/d))^2 / lam^2. -/
def term1Q (c s lam d p : ℚ) : ℚ := (c/d + p*(s/d))^2 / lam^2

/-- Exact-arithmetic term2 = (p*(c/d) - s/d)^2. -/
def term2Q (c s d p : ℚ) : ℚ := (p*(c/d) - s/d)^2

/-- Exact-arithmetic dSq = c*c + s*s. -/
def dSqQ (c s : ℚ) : ℚ := c*c + s*s

/-- Exact-arithmetic version of the quantity the sanity-check section
prints (before its square root): tau.x^2 + (tau.y*lam)^2, which scales
tau.y by lam, unlike the circle identity of C10. -/
def sanityNormSqQ (c s lam f p : ℚ) : ℚ :=
  tauXQ c s f p ^ 2 + (tauYQ c s lam f p * lam)^2

/-- C10: in exact arithmetic, the tau point of compute_tau lies on the
circle of radius d: tau.x^2 + tau.y^2 = dSq, for every price bound and
every valid c, s, lambda; here d and the dFactor value f are characterized
by d*d = dSq and f*f*(term1+term2) = 1.  The sanity-check section instead
prints the norm of (tau.x, tau.y*lam), a different quantity. -/
theorem tau_norm_sq_eq_dSq_exact (cc ss la dd ff p : ℚ) (hd : dd ≠ 0)
    (hlam : la ≠ 0) (hdSq : dd*dd = dSqQ cc ss)
    (hf : ff*ff * (term1Q cc ss la dd p + term2Q cc ss dd p) = 1) :
    tauXQ cc ss ff p ^ 2 + tauYQ cc ss la ff p ^ 2 = dSqQ cc ss ∧
    sanityNormSqQ cc ss la ff p = tauXQ cc ss ff p ^ 2 + (tauYQ cc ss la ff p * la) ^ 2 := by
  constructor
  · have e1 : (term1Q cc ss la dd p + term2Q cc ss dd p) * (dd^2 * la^2) =
        (cc + p*ss)^2 + la^2*(p*cc - ss)^2 := by
      unfold term1Q term2Q
      field_simp
      ring
    have key : ff*ff * ((cc + p*ss)^2 + la^2*(p*cc - ss)^2) = dd*dd*la^2 := by
      calc ff*ff * ((cc + p*ss)^2 + la^2*(p*cc - ss)^2)
          = ff*ff * ((term1Q cc ss la dd p + term2Q cc ss dd p) * (dd^2 * la^2)) := by
            rw [e1]
        _ = (ff*ff * (term1Q cc ss la dd p + term2Q cc ss dd p)) * (dd^2 * la^2) := by
            ring
        _ = dd*dd*la^2 := by rw [hf]; ring
    unfold dSqQ at hdSq
    unfold tauXQ tauYQ dSqQ
    field_simp
    linear_combination key + la^2 * hdSq
  · rfl

/-- Witness for C10: concrete rational instance c=1, s=0, lambda=50, d=1,
f=40, p=3/200 where all hypotheses hold. -/
theorem tau_norm_sq_eq_dSq_exact_witness :
    ((1:ℚ) ≠ 0) ∧ ((50:ℚ) ≠ 0) ∧ ((1:ℚ)*1 = dSqQ 1 0) ∧
    ((40:ℚ)*40 * (term1Q 1 0 50 1 (3/200) + term2Q 1 0 1 (3/200)) = 1) ∧
    tauXQ 1 0 40 (3/200) ^ 2 + tauYQ 1 0 50 40 (3/200) ^ 2 = dSqQ 1 0 :=
  ⟨by norm_num, by norm_num, by norm_num [dSqQ],
   by norm_num [term1Q, term2Q],
   (tau_norm_sq_eq_dSq_exact 1 0 50 1 40 (3/200) (by norm_num) (by norm_num)
     (by norm_num [dSqQ]) (by norm_num [term1Q, term2Q])).1⟩

/-! Truncation law: to_int38 is floor for nonnegative values and ceil for
negative values (claim C2). -/

lemma floor_cast_nat_div (a b : Nat) (hb : 0 < b) :
    ⌊(a : ℚ) / (b : ℚ)⌋ = ((a / b : Nat) : Int) := by
  have hbq : (0:ℚ) < (b : ℚ) := by exact_mod_cast hb
  have h1 := Nat.div_add_mod a b
  have h2 := Nat.mod_lt a hb
  have hcast : (b:ℚ) * ((a / b : Nat) : ℚ) + ((a % b : Nat) : ℚ) = (a : ℚ) := by
    exact_mod_cast congrArg (fun t : ℕ => (t : ℚ)) h1
  have h2q : ((a % b : Nat) : ℚ) < (b : ℚ) := by exact_mod_cast h2
  have hr0 : (0:ℚ) ≤ ((a % b : Nat) : ℚ) := by positivity
  rw [Int.floor_eq_iff]
  rw [Int.cast_natCast]
  constructor
  · rw [le_div_iff₀ hbq]
    nlinarith
  · rw [div_lt_iff₀ hbq]
    nlinarith

lemma truncInt_eq_floor_ceil (y : Dec) :
    truncInt y = if 0 ≤ val y then ⌊val y⌋ else ⌈val y⌉ := by
  unfold truncInt
  split
  · next he =>
    have hy : val y = ((y.m * 10 ^ y.e.toNat : ℤ) : ℚ) := by
      rw [val]
      push_cast
      rw [q10 y.e he]
    split
    · rw [hy, Int.floor_intCast]
    · rw [hy, Int.ceil_intCast]
  · next he =>
    push_neg at he
    set k := (-y.e).toNat with hkdef
    have hk : ((k : ℤ) : Int) = -y.e := by
      rw [hkdef]
      exact Int.toNat_of_nonneg (by omega)
    have hbq : (0:Nat) < 10 ^ k := pow_pos (by norm_num) _
    have hval : val y = (y.m : ℚ) / ((10 ^ k : Nat) : ℚ) := by
      rw [val, q10nat, eq_div_iff (ne_of_gt (q10_pos _)), mul_assoc, q10_merge]
      rw [show y.e + (k : Int) = 0 by omega]
      norm_num
    rcases lt_trichotomy y.m 0 with hm | hm | hm
    · have hsgn : y.m.sign = -1 := Int.sign_eq_neg_one_of_neg hm
      have hnegval : ¬ (0 ≤ val y) := by
        push_neg
        exact (val_neg_iff y).2 hm
      rw [if_neg hnegval, hsgn]
      have h2 : y.m = -((y.m.natAbs : Nat) : ℤ) := by omega
      have habs : (y.m : ℚ) = -((y.m.natAbs : Nat) : ℚ) := by
        have hcongr : ((y.m : ℤ) : ℚ) = ((-((y.m.natAbs : Nat) : ℤ) : ℤ) : ℚ) :=
          congrArg (fun t : ℤ => (t : ℚ)) h2
        rw [Int.cast_neg, Int.cast_natCast] at hcongr
        exact hcongr
      rw [hval, habs, neg_div, Int.ceil_neg, floor_cast_nat_div _ _ hbq]
      push_cast
      ring
    · rw [hm]
      simp [val, hm]
    · have hsgn : y.m.sign = 1 := Int.sign_eq_one_of_pos hm
      have hposval : 0 ≤ val y := le_of_lt ((val_pos_iff y).2 hm)
      rw [if_pos hposval, hsgn]
      have h2 : y.m = ((y.m.natAbs : Nat) : ℤ) := by omega
      have habs : (y.m : ℚ) = ((y.m.natAbs : Nat) : ℚ) := by
        have hcongr : ((y.m : ℤ) : ℚ) = ((((y.m.natAbs : Nat) : ℤ) : ℤ) : ℚ) :=
          congrArg (fun t : ℤ => (t : ℚ)) h2
        rw [Int.cast_natCast] at hcongr
        exact hcongr
      rw [hval, habs, floor_cast_nat_div _ _ hbq]
      push_cast
      ring

lemma val_shift38 (x : Dec) : val (⟨x.m, x.e + 38⟩ : Dec) = val x * 10 ^ (38:Nat) := by
  rw [val, val, ← q10_merge, show ((10:ℚ) ^ (38:Int)) = (10:ℚ) ^ (38:Nat) by norm_num]
  ring

/-- C2: for every decimal value x passed to the scaling step (its
coefficient fits in the context precision, as holds for every operation
result), the scaled integer output equals floor(x * 10^38) when x is
nonnegative and ceil(x * 10^38) when x is negative: truncation toward
zero, never rounding to nearest and never floor for negatives. -/
theorem to_int38_truncates_toward_zero (x : Dec) (h : ndigits x.m.natAbs ≤ prec) :
    to_int38 x = if 0 ≤ val x then ⌊val x * 10 ^ (38:Nat)⌋ else ⌈val x * 10 ^ (38:Nat)⌉ := by
  have hsh : mulD x SCALE_38 = (⟨x.m, x.e + 38⟩ : Dec) := by
    have h1 : mulD x SCALE_38 = roundD ⟨x.m * 1, x.e + 38⟩ := rfl
    rw [h1, mul_one]
    exact roundD_eq_self _ h
  unfold to_int38
  rw [hsh, truncInt_eq_floor_ceil, val_shift38]
  have h38 : (0:ℚ) < 10 ^ (38:Nat) := by positivity
  have hiff : 0 ≤ val x * 10 ^ (38:Nat) ↔ 0 ≤ val x := by
    constructor
    · intro hh
      nlinarith
    · intro hh
      positivity
  rw [if_congr hiff rfl rfl]

/-- Witness for C2 at the decimal -1.5: its digits fit, and the scaled
output is the ceiling (truncation toward zero) of -1.5e38. -/
theorem to_int38_truncates_toward_zero_witness :
    ndigits (⟨-15, -1⟩ : Dec).m.natAbs ≤ prec ∧
    to_int38 ⟨-15, -1⟩ =
      if 0 ≤ val ⟨-15, -1⟩ then ⌊val ⟨-15, -1⟩ * 10 ^ (38:Nat)⌋
      else ⌈val ⟨-15, -1⟩ * 10 ^ (38:Nat)⌉ :=
  ⟨by decide, to_int38_truncates_toward_zero ⟨-15, -1⟩ (by decide)⟩

/-! Sign propagation through the operations (coefficient level), for the
arithmetic-safety claim C5. -/

lemma roundD_nonneg (x : Dec) (h : 0 ≤ x.m) : 0 ≤ (roundD x).m := by
  rcases eq_or_lt_of_le h with h1 | h1
  · rw [roundD_m_zero x h1.symm]
  · exact le_of_lt (roundD_pos x h1)

lemma roundD_nonpos (x : Dec) (h : x.m ≤ 0) : (roundD x).m ≤ 0 := by
  rcases eq_or_lt_of_le h with h1 | h1
  · rw [roundD_m_zero x h1]
  · exact le_of_lt (roundD_neg x h1)

lemma zpow_int_pos (t : Nat) : (0:Int) < 10 ^ t := pow_pos (by norm_num) _

lemma addD_m_pos (x y : Dec) (hx : 0 < x.m) (hy : 0 ≤ y.m) : 0 < (addD x y).m := by
  apply roundD_pos
  show 0 < x.m * 10 ^ (x.e - min x.e y.e).toNat + y.m * 10 ^ (y.e - min x.e y.e).toNat
  have h1 : 0 < x.m * 10 ^ (x.e - min x.e y.e).toNat :=
    mul_pos hx (zpow_int_pos _)
  have h2 : 0 ≤ y.m * 10 ^ (y.e - min x.e y.e).toNat :=
    mul_nonneg hy (le_of_lt (zpow_int_pos _))
  omega

lemma addD_m_pos_right (x y : Dec) (hx : 0 ≤ x.m) (hy : 0 < y.m) : 0 < (addD x y).m := by
  apply roundD_pos
  show 0 < x.m * 10 ^ (x.e - min x.e y.e).toNat + y.m * 10 ^ (y.e - min x.e y.e).toNat
  have h1 : 0 ≤ x.m * 10 ^ (x.e - min x.e y.e).toNat :=
    mul_nonneg hx (le_of_lt (zpow_int_pos _))
  have h2 : 0 < y.m * 10 ^ (y.e - min x.e y.e).toNat :=
    mul_pos hy (zpow_int_pos _)
  omega

lemma addD_m_neg (x y : Dec) (hx : x.m < 0) (hy : y.m ≤ 0) : (addD x y).m < 0 := by
  apply roundD_neg
  show x.m * 10 ^ (x.e - min x.e y.e).toNat + y.m * 10 ^ (y.e - min x.e y.e).toNat < 0
  have h1 : x.m * 10 ^ (x.e - min x.e y.e).toNat < 0 :=
    mul_neg_of_neg_of_pos hx (zpow_int_pos _)
  have h2 : y.m * 10 ^ (y.e - min x.e y.e).toNat ≤ 0 :=
    mul_nonpos_of_nonpos_of_nonneg hy (le_of_lt (zpow_int_pos _))
  omega

lemma addD_m_nonneg (x y : Dec) (hx : 0 ≤ x.m) (hy : 0 ≤ y.m) : 0 ≤ (addD x y).m := by
  apply roundD_nonneg
  show 0 ≤ x.m * 10 ^ (x.e - min x.e y.e).toNat + y.m * 10 ^ (y.e - min x.e y.e).toNat
  have h1 : 0 ≤ x.m * 10 ^ (x.e - min x.e y.e).toNat :=
    mul_nonneg hx (le_of_lt (zpow_int_pos _))
  have h2 : 0 ≤ y.m * 10 ^ (y.e - min x.e y.e).toNat :=
    mul_nonneg hy (le_of_lt (zpow_int_pos _))
  omega

lemma addD_m_zero_iff (x y : Dec) :
    (addD x y).m = 0 ↔
      x.m * 10 ^ (x.e - min x.e y.e).toNat + y.m * 10 ^ (y.e - min x.e y.e).toNat = 0 :=
  roundD_m_zero_iff _

lemma mulD_m_pos (x y : Dec) (hx : 0 < x.m) (hy : 0 < y.m) : 0 < (mulD x y).m :=
  roundD_pos _ (mul_pos hx hy)

lemma mulD_m_neg (x y : Dec) (hx : 0 < x.m) (hy : y.m < 0) : (mulD x y).m < 0 :=
  roundD_neg _ (mul_neg_of_pos_of_neg hx hy)

lemma mulD_m_nonneg_of (x y : Dec) (hx : 0 < x.m) (hy : 0 ≤ y.m) : 0 ≤ (mulD x y).m :=
  roundD_nonneg _ (mul_nonneg (le_of_lt hx) hy)

lemma mulD_m_nonpos_of (x y : Dec) (hx : 0 < x.m) (hy : y.m ≤ 0) : (mulD x y).m ≤ 0 :=
  roundD_nonpos _ (mul_nonpos_iff.2 (Or.inl ⟨le_of_lt hx, hy⟩))

lemma mulD_m_zero_right (x y : Dec) (h : y.m = 0) : (mulD x y).m = 0 := by
  apply roundD_m_zero
  show x.m * y.m = 0
  rw [h, mul_zero]

lemma sqD_m_nonneg (x : Dec) : 0 ≤ (sqD x).m :=
  roundD_nonneg _ (mul_self_nonneg _)

lemma sqD_m_pos (x : Dec) (h : x.m ≠ 0) : 0 < (sqD x).m := by
  apply roundD_pos
  show 0 < x.m * x.m
  rcases lt_or_gt_of_ne h with h1 | h1
  · exact mul_pos_of_neg_of_neg h1 h1
  · exact mul_pos h1 h1

lemma divD_zero_right (x y : Dec) (h : y.m = 0) : divD x y = ⟨0, 0⟩ := by
  unfold divD
  rw [if_pos h]

lemma divD_zero_left (x y : Dec) (h : x.m = 0) : divD x y = ⟨0, 0⟩ := by
  simp [divD, h]

/-! Scaling bounds for the division routine: the scaled quotient lies
between 10^(prec-1) and 10^(prec+1). -/

lemma divM_pos (a b : Nat) (hb : 1 ≤ b) : 0 < divM a b :=
  Nat.mul_pos hb (pow_pos (by norm_num) _)

lemma div_scale_bounds (a b : Nat) (ha : 1 ≤ a) (hb : 1 ≤ b) :
    10 ^ (prec-1) * divM a b ≤ divN a b ∧ divN a b < 10 ^ (prec+1) * divM a b := by
  have hda1 := ndigits_lb a ha
  have hda2 := ndigits_ub a ha
  have hdb1 := ndigits_lb b hb
  have hdb2 := ndigits_ub b hb
  have hdap := ndigits_pos a ha
  have hdbp := ndigits_pos b hb
  set da := ndigits a
  set db := ndigits b
  set K1 := (divK a b).toNat with hK1
  set K2 := (-(divK a b)).toNat with hK2
  have hkey : (K1 : Int) - (K2 : Int) = (prec : Int) + db - da := by
    rw [hK1, hK2]
    unfold divK
    omega
  have hexp1 : prec - 1 + db + K2 = da - 1 + K1 := by
    have hp : (0:Nat) < prec := by norm_num [prec]
    omega
  have hexp2 : da + K1 = prec + 1 + (db - 1) + K2 := by
    have hp : (0:Nat) < prec := by norm_num [prec]
    omega
  constructor
  · have step1 : 10 ^ (prec-1) * divM a b ≤ 10 ^ (prec-1) * ((10 ^ db - 1) * 10 ^ K2) := by
      apply Nat.mul_le_mul_left
      unfold divM
      rw [← hK2]
      exact Nat.mul_le_mul_right _ (by omega)
    have step2 : 10 ^ (prec-1) * ((10 ^ db - 1) * 10 ^ K2) < 10 ^ (da - 1 + K1) := by
      rw [← hexp1, pow_add, pow_add]
      have hpos2 : (0:Nat) < 10 ^ (prec-1) := pow_pos (by norm_num) _
      have hpos3 : (0:Nat) < 10 ^ K2 := pow_pos (by norm_num) _
      have hpos4 : (0:Nat) < 10 ^ db := pow_pos (by norm_num) _
      calc 10 ^ (prec-1) * ((10 ^ db - 1) * 10 ^ K2)
          < 10 ^ (prec-1) * (10 ^ db * 10 ^ K2) :=
            (Nat.mul_lt_mul_left hpos2).2 ((Nat.mul_lt_mul_right hpos3).2 (by omega))
        _ = 10 ^ (prec-1) * 10 ^ db * 10 ^ K2 := by ring
    have step3 : 10 ^ (da - 1 + K1) ≤ divN a b := by
      unfold divN
      rw [← hK1, pow_add]
      exact Nat.mul_le_mul_right _ hda1
    omega
  · have step1 : divN a b < 10 ^ (da + K1) := by
      unfold divN
      rw [← hK1, pow_add]
      exact (Nat.mul_lt_mul_right (pow_pos (by norm_num) _)).2 hda2
    have step2 : 10 ^ (da + K1) ≤ 10 ^ (prec+1) * divM a b := by
      rw [hexp2, pow_add, pow_add]
      unfold divM
      rw [← hK2]
      have : 10 ^ (db - 1) ≤ b := hdb1
      calc 10 ^ (prec+1) * 10 ^ (db-1) * 10 ^ K2
          ≤ 10 ^ (prec+1) * b * 10 ^ K2 := by
            exact Nat.mul_le_mul_right _ (Nat.mul_le_mul_left _ this)
        _ = 10 ^ (prec+1) * (b * 10 ^ K2) := by ring
    omega

lemma divCoeff_ge_one (a b : Nat) (ha : 1 ≤ a) (hb : 1 ≤ b) :
    1 ≤ rdivHE (divN a b) (divM a b) ∧
      (¬ (divN a b / divM a b < 10 ^ prec) → 1 ≤ rdivHE (divN a b) (divM a b * 10)) := by
  have hM := divM_pos a b hb
  obtain ⟨hlo, hhi⟩ := div_scale_bounds a b ha hb
  constructor
  · have h1 : 10 ^ (prec-1) ≤ divN a b / divM a b :=
      (Nat.le_div_iff_mul_le hM).2 hlo
    have h2 := rdivHE_ge_div (divN a b) (divM a b) hM
    have h3 : (0:Nat) < 10 ^ (prec-1) := pow_pos (by norm_num) _
    omega
  · intro hcond
    push_neg at hcond
    have h4 : 10 ^ prec * divM a b ≤ divN a b := by
      have := (Nat.le_div_iff_mul_le hM).1 hcond
      omega
    have h5 : 10 ^ (prec-1) * (divM a b * 10) ≤ divN a b := by
      have hEq : 10 ^ (prec-1) * (divM a b * 10) = 10 ^ prec * divM a b := by
        have hp : prec - 1 + 1 = prec := by norm_num [prec]
        calc 10 ^ (prec-1) * (divM a b * 10) = 10 ^ (prec-1) * 10 * divM a b := by ring
          _ = 10 ^ (prec-1+1) * divM a b := by rw [pow_succ]
          _ = 10 ^ prec * divM a b := by rw [hp]
      rw [hEq]
      exact h4
    have h6 : 10 ^ (prec-1) ≤ divN a b / (divM a b * 10) :=
      (Nat.le_div_iff_mul_le (by omega)).2 h5
    have h7 := rdivHE_ge_div (divN a b) (divM a b * 10) (by omega)
    have h8 : (0:Nat) < 10 ^ (prec-1) := pow_pos (by norm_num) _
    omega

lemma divD_m_pos (x y : Dec) (hx : 0 < x.m) (hy : 0 < y.m) : 0 < (divD x y).m := by
  have ha : 1 ≤ x.m.natAbs := Int.natAbs_pos.2 (ne_of_gt hx)
  have hb : 1 ≤ y.m.natAbs := Int.natAbs_pos.2 (ne_of_gt hy)
  obtain ⟨h1, h2⟩ := divCoeff_ge_one x.m.natAbs y.m.natAbs ha hb
  unfold divD
  rw [if_neg (ne_of_gt hy), if_neg (ne_of_gt hx)]
  rw [Int.sign_eq_one_of_pos hx, Int.sign_eq_one_of_pos hy]
  split
  · show (0:Int) < 1 * 1 * (rdivHE (divN x.m.natAbs y.m.natAbs) (divM x.m.natAbs y.m.natAbs) : Nat)
    simp only [one_mul]
    exact_mod_cast h1
  · next hc =>
    show (0:Int) < 1 * 1 * (rdivHE (divN x.m.natAbs y.m.natAbs) (divM x.m.natAbs y.m.natAbs * 10) : Nat)
    simp only [one_mul]
    exact_mod_cast h2 hc

lemma divD_m_neg_pos (x y : Dec) (hx : x.m < 0) (hy : 0 < y.m) : (divD x y).m < 0 := by
  have ha : 1 ≤ x.m.natAbs := Int.natAbs_pos.2 (ne_of_lt hx)
  have hb : 1 ≤ y.m.natAbs := Int.natAbs_pos.2 (ne_of_gt hy)
  obtain ⟨h1, h2⟩ := divCoeff_ge_one x.m.natAbs y.m.natAbs ha hb
  unfold divD
  rw [if_neg (ne_of_gt hy), if_neg (ne_of_lt hx)]
  rw [Int.sign_eq_neg_one_of_neg hx, Int.sign_eq_one_of_pos hy]
  split
  · show (-1 * 1 : Int) * (rdivHE (divN x.m.natAbs y.m.natAbs) (divM x.m.natAbs y.m.natAbs) : Nat) < 0
    have : (0:Int) < (rdivHE (divN x.m.natAbs y.m.natAbs) (divM x.m.natAbs y.m.natAbs) : Nat) := by
      exact_mod_cast h1
    omega
  · next hc =>
    show (-1 * 1 : Int) * (rdivHE (divN x.m.natAbs y.m.natAbs) (divM x.m.natAbs y.m.natAbs * 10) : Nat) < 0
    have : (0:Int) < (rdivHE (divN x.m.natAbs y.m.natAbs) (divM x.m.natAbs y.m.natAbs * 10) : Nat) := by
      exact_mod_cast h2 hc
    omega

lemma divD_m_nonneg (x y : Dec) (hx : 0 ≤ x.m) (hy : 0 < y.m) : 0 ≤ (divD x y).m := by
  rcases eq_or_lt_of_le hx with h1 | h1
  · rw [divD_zero_left x y h1.symm]
  · exact le_of_lt (divD_m_pos x y h1 hy)

lemma sqrtD_m_pos (x : Dec) (h : 0 < x.m) : 0 < (sqrtD x).m := by
  unfold sqrtD
  rw [if_neg (by omega)]
  show (0:Int) < (sqrtR x.m.natAbs x.e : Nat)
  have hn : 1 ≤ x.m.natAbs := Int.natAbs_pos.2 (ne_of_gt h)
  have hN : 1 ≤ sqrtN x.m.natAbs x.e := by
    unfold sqrtN
    have hp := pow_pos (show (0:Nat) < 10 by norm_num)
      ((sqrtE (ndigits x.m.natAbs : Int) x.e).toNat)
    exact Nat.one_le_iff_ne_zero.2 (Nat.mul_ne_zero (by omega) (by omega))
  have hs0 : 1 ≤ isqrt (sqrtN x.m.natAbs x.e) := isqrt_pos _ hN
  unfold sqrtR
  split
  · exact_mod_cast Nat.le_succ_of_le hs0
  · exact_mod_cast hs0

/-! Arithmetic safety of the derivation (claim C5). -/

lemma divD_m_ne_zero (x y : Dec) (hx : x.m ≠ 0) (hy : 0 < y.m) : (divD x y).m ≠ 0 := by
  rcases lt_or_gt_of_ne hx with h1 | h1
  · exact ne_of_lt (divD_m_neg_pos x y h1 hy)
  · exact ne_of_gt (divD_m_pos x y h1 hy)

lemma radicand_m_pos (cc ss la p : Dec) (hcs : ¬(cc.m = 0 ∧ ss.m = 0))
    (hla : 0 < la.m) (hp : 0 < p.m) (hd : 0 < (dOf cc ss).m) :
    0 < (radicandOf cc ss la (dOf cc ss) p).m := by
  set dd := dOf cc ss with hdd
  have hlam2 : 0 < (sqD la).m := sqD_m_pos la (ne_of_gt hla)
  have t1nonneg : 0 ≤ (term1Of cc ss la dd p).m :=
    divD_m_nonneg _ _ (sqD_m_nonneg _) hlam2
  have t2nonneg : 0 ≤ (term2Of cc ss dd p).m := sqD_m_nonneg _
  by_cases hA : (addD (cOverD cc dd) (mulD p (sOverD ss dd))).m = 0
  · by_cases hB : (subD (mulD p (cOverD cc dd)) (sOverD ss dd)).m = 0
    · exfalso
      set xq := cOverD cc dd with hxq
      set yq := sOverD ss dd with hyq
      set uq := mulD p xq with huq
      set zq := mulD p yq with hzq
      have hAparts := (addD_m_zero_iff xq zq).1 hA
      have hBparts := (addD_m_zero_iff uq ⟨-yq.m, yq.e⟩).1 hB
      dsimp only at hBparts
      rw [neg_mul] at hBparts
      by_cases hss0 : ss.m = 0
      · have hcc : cc.m ≠ 0 := fun h => hcs ⟨h, hss0⟩
        have hy0 : yq.m = 0 := by
          rw [hyq]
          unfold sOverD
          rw [divD_zero_left ss dd hss0]
        have hz0 : zq.m = 0 := mulD_m_zero_right p yq hy0
        rw [hz0, zero_mul, add_zero] at hAparts
        rcases mul_eq_zero.1 hAparts with h2 | h2
        · exact divD_m_ne_zero cc dd hcc hd h2
        · exact absurd h2 (ne_of_gt (zpow_int_pos _))
      · have hBeq : uq.m * 10 ^ (uq.e - min uq.e yq.e).toNat =
            yq.m * 10 ^ (yq.e - min uq.e yq.e).toNat := by
          have := hBparts
          omega
        rcases lt_or_gt_of_ne hss0 with hneg | hpos2
        · have hyneg : yq.m < 0 := divD_m_neg_pos ss dd hneg hd
          have hzneg : zq.m < 0 := mulD_m_neg p yq hp hyneg
          have hprod : yq.m * 10 ^ (yq.e - min uq.e yq.e).toNat < 0 :=
            mul_neg_of_neg_of_pos hyneg (zpow_int_pos _)
          have huneg : uq.m < 0 := by
            by_contra hcon
            push_neg at hcon
            have h3 : 0 ≤ uq.m * 10 ^ (uq.e - min uq.e yq.e).toNat :=
              mul_nonneg hcon (le_of_lt (zpow_int_pos _))
            omega
          have hxneg : xq.m < 0 := by
            by_contra hcon
            push_neg at hcon
            have h5 : 0 ≤ uq.m := by
              rw [huq]
              exact mulD_m_nonneg_of p xq hp hcon
            omega
          have := addD_m_neg xq zq hxneg (le_of_lt hzneg)
          omega
        · have hypos : 0 < yq.m := divD_m_pos ss dd hpos2 hd
          have hzpos : 0 < zq.m := mulD_m_pos p yq hp hypos
          have hprod : 0 < yq.m * 10 ^ (yq.e - min uq.e yq.e).toNat :=
            mul_pos hypos (zpow_int_pos _)
          have hupos : 0 < uq.m := by
            by_contra hcon
            push_neg at hcon
            have h3 : uq.m * 10 ^ (uq.e - min uq.e yq.e).toNat ≤ 0 :=
              mul_nonpos_of_nonpos_of_nonneg hcon (le_of_lt (zpow_int_pos _))
            omega
          have hxpos : 0 < xq.m := by
            by_contra hcon
            push_neg at hcon
            have h5 : uq.m ≤ 0 := by
              rw [huq]
              exact mulD_m_nonpos_of p xq hp hcon
            omega
          have := addD_m_pos xq zq hxpos (le_of_lt hzpos)
          omega
    · have t2pos : 0 < (term2Of cc ss dd p).m := sqD_m_pos _ hB
      exact addD_m_pos_right _ _ t1nonneg t2pos
  · have t1pos : 0 < (term1Of cc ss la dd p).m :=
      divD_m_pos _ _ (sqD_m_pos _ hA) hlam2
    exact addD_m_pos _ _ t1pos t2nonneg

/-- C5: for valid inputs (c and s not both zero, lambda positive, both price
bounds positive), no division by zero and no square root of a negative
number occurs anywhere in the computation: dSq is nonnegative before its
square root, d is nonzero as a divisor, lam^2 and lam are nonzero as
divisors, and for each price bound the radicand term1+term2 is nonnegative
and its square root (the dFactor denominator) is nonzero — so the
arithmetic-error branch is unreachable. -/
theorem arithmetic_safety (al be cc ss la : Dec)
    (hcs : ¬(cc.m = 0 ∧ ss.m = 0)) (hla : 0 < la.m)
    (hal : 0 < al.m) (hbe : 0 < be.m) :
    0 ≤ (dSqOf cc ss).m ∧ (dOf cc ss).m ≠ 0 ∧ (sqD la).m ≠ 0 ∧ la.m ≠ 0 ∧
    (0 ≤ (radicandOf cc ss la (dOf cc ss) al).m ∧
      (sqrtD (radicandOf cc ss la (dOf cc ss) al)).m ≠ 0) ∧
    (0 ≤ (radicandOf cc ss la (dOf cc ss) be).m ∧
      (sqrtD (radicandOf cc ss la (dOf cc ss) be)).m ≠ 0) := by
  have hdSqpos : 0 < (dSqOf cc ss).m := by
    by_cases hc0 : cc.m = 0
    · have hs0 : ss.m ≠ 0 := fun h => hcs ⟨hc0, h⟩
      exact addD_m_pos_right _ _ (sqD_m_nonneg cc) (sqD_m_pos ss hs0)
    · exact addD_m_pos _ _ (sqD_m_pos cc hc0) (sqD_m_nonneg ss)
  have hd : 0 < (dOf cc ss).m := sqrtD_m_pos _ hdSqpos
  have hradAl := radicand_m_pos cc ss la al hcs hla hal hd
  have hradBe := radicand_m_pos cc ss la be hcs hla hbe hd
  exact ⟨le_of_lt hdSqpos, ne_of_gt hd, ne_of_gt (sqD_m_pos la (ne_of_gt hla)),
    ne_of_gt hla,
    ⟨le_of_lt hradAl, ne_of_gt (sqrtD_m_pos _ hradAl)⟩,
    ⟨le_of_lt hradBe, ne_of_gt (sqrtD_m_pos _ hradBe)⟩⟩

/-- Witness for C5 at the program's hard-coded inputs. -/
theorem arithmetic_safety_witness :
    (¬(c.m = 0 ∧ s.m = 0)) ∧ (0 < lam.m) ∧ (0 < alpha.m) ∧ (0 < beta.m) ∧
    (0 ≤ (dSqOf c s).m ∧ (dOf c s).m ≠ 0 ∧ (sqD lam).m ≠ 0 ∧ lam.m ≠ 0 ∧
      (0 ≤ (radicandOf c s lam (dOf c s) alpha).m ∧
        (sqrtD (radicandOf c s lam (dOf c s) alpha)).m ≠ 0) ∧
      (0 ≤ (radicandOf c s lam (dOf c s) beta).m ∧
        (sqrtD (radicandOf c s lam (dOf c s) beta)).m ≠ 0)) :=
  ⟨by decide, by decide, by decide, by decide,
   arithmetic_safety alpha beta c s lam (by decide) (by decide) (by decide) (by decide)⟩

/-! Evaluation of the sanity-check section (claim C7). -/

lemma val_mk_neg_exp (m : Int) (k : Nat) :
    val (⟨m, -(k : Int)⟩ : Dec) = (m : ℚ) / ((10 ^ k : Nat) : ℚ) := by
  rw [val, q10nat, zpow_neg, ← div_eq_mul_inv]

lemma sanityAlpha_eval : sanityAlpha = (⟨13896620015652694546090145199680515716197179834853165063480313066895660506430994063720813238303759381554618769121789210232044756203984334262024910896601473151243301294629959736382613248722438527808299, -199⟩ : Dec) := by
  unfold sanityAlpha
  rw [tauAlpha_eval]
  decide

lemma sanityBeta_eval : sanityBeta = (⟨13275145367814214036488343544565113013058977577077047691789590667763706449656746857132318883372401499793499628359496222135640464194730107285299010620336447933598924521966973009528155534102747644587090, -199⟩ : Dec) := by
  unfold sanityBeta
  rw [tauBeta_eval]
  decide

/-- C7 evaluation: for the hard-coded inputs, the restated dSq sanity value
is exactly 1, but the two printed tau-norm sanity values are greater than
1.3 — far outside any 1 percent tolerance around 1 — because the program
scales tau.y by lambda inside the norm; the unscaled norm would be 1. -/
theorem sanity_norms_evaluate :
    val dSq = 1 ∧ (13/10 : ℚ) < val sanityAlpha ∧ (13/10 : ℚ) < val sanityBeta := by
  have hdSq : dSq = (⟨10 ^ 199, -199⟩ : Dec) := by decide
  refine ⟨?_, ?_, ?_⟩
  · rw [hdSq, show ((-199 : Int)) = -((199 : Nat) : Int) from by norm_num, val_mk_neg_exp]
    rw [div_eq_one_iff_eq (by positivity)]
    norm_num
  · rw [sanityAlpha_eval, show ((-199 : Int)) = -((199 : Nat) : Int) from by norm_num,
      val_mk_neg_exp]
    rw [lt_div_iff₀ (by positivity)]
    norm_num
  · rw [sanityBeta_eval, show ((-199 : Int)) = -((199 : Nat) : Int) from by norm_num,
      val_mk_neg_exp]
    rw [lt_div_iff₀ (by positivity)]
    norm_num

/-! Correct rounding as a value-level relation, and its monotonicity.
These drive the monotonicity regression claim C6. -/

lemma q10intpow (k : Nat) : (((10:Int) ^ k : Int) : ℚ) = (10:ℚ) ^ (k : Int) := by
  rw [← q10nat]
  push_cast
  ring

/-- RoundsTo v w: w is the half-even rounding of the positive value v to
prec significant digits — w lies on the grid of step 10^t where t is fixed
by the decade of v, is within half a grid step of v, and ties pick an even
coefficient. -/
def RoundsTo (v w : ℚ) : Prop :=
  ∃ t j : Int, w = (j : ℚ) * (10:ℚ) ^ t ∧
    (10:ℚ) ^ ((prec : Int) - 1 + t) ≤ v ∧ v ≤ (10:ℚ) ^ ((prec : Int) + t) ∧
    2 * |w - v| ≤ (10:ℚ) ^ t ∧
    (2 * |w - v| = (10:ℚ) ^ t → 2 ∣ j)

lemma roundsTo_mono {v1 v2 w1 w2 : ℚ} (hv : v1 ≤ v2)
    (h1 : RoundsTo v1 w1) (h2 : RoundsTo v2 w2) : w1 ≤ w2 := by
  obtain ⟨t1, j1, hw1, hf1a, hf1b, he1, ht1⟩ := h1
  obtain ⟨t2, j2, hw2, hf2a, hf2b, he2, ht2⟩ := h2
  have hQ1 : (0:ℚ) < (10:ℚ) ^ t1 := q10_pos t1
  have hQ2 : (0:ℚ) < (10:ℚ) ^ t2 := q10_pos t2
  have e1a : 2*(w1 - v1) ≤ (10:ℚ) ^ t1 := by
    have := le_abs_self (w1 - v1)
    linarith
  have e1b : 2*(v1 - w1) ≤ (10:ℚ) ^ t1 := by
    have := neg_abs_le (w1 - v1)
    linarith
  have e2a : 2*(w2 - v2) ≤ (10:ℚ) ^ t2 := by
    have := le_abs_self (w2 - v2)
    linarith
  have e2b : 2*(v2 - w2) ≤ (10:ℚ) ^ t2 := by
    have := neg_abs_le (w2 - v2)
    linarith
  have hPcast : (((10:Int) ^ prec : Int) : ℚ) = (10:ℚ) ^ ((prec : Nat) : Int) :=
    q10intpow prec
  have hPcast1 : (((10:Int) ^ (prec-1) : Int) : ℚ) = (10:ℚ) ^ (((prec-1 : Nat)) : Int) :=
    q10intpow (prec-1)
  have hPnat : (((prec : Nat)) : Int) = (prec : Int) := rfl
  rcases lt_trichotomy t1 t2 with hlt | heq | hgt
  · have hj1le : j1 ≤ 10 ^ prec := by
      have hcomb : (j1:ℚ) * (10:ℚ)^t1 ≤ (10:ℚ)^((prec:Int) + t1) + (10:ℚ)^t1 / 2 := by
        rw [← hw1]
        linarith
      rw [← q10_merge] at hcomb
      have hj1q : (j1:ℚ) ≤ (10:ℚ)^((prec:Int)) + 1/2 := by
        nlinarith [hcomb, hQ1]
      have h4 : (j1:ℚ) < (((10:Int) ^ prec : Int) : ℚ) + 1 := by
        rw [hPcast, hPnat]
        linarith
      have h5 : j1 < (10:Int) ^ prec + 1 := by exact_mod_cast h4
      omega
    have hj2ge : (10:Int) ^ (prec-1) ≤ j2 := by
      have hcomb : (10:ℚ)^((prec:Int) - 1 + t2) - (10:ℚ)^t2 / 2 ≤ (j2:ℚ) * (10:ℚ)^t2 := by
        rw [← hw2]
        linarith
      rw [show (prec:Int) - 1 + t2 = ((prec-1 : Nat) : Int) + t2 by
            have : (0:Nat) < prec := by norm_num [prec]
            omega, ← q10_merge] at hcomb
      have hj2q : (10:ℚ)^(((prec-1:Nat)):Int) - 1/2 ≤ (j2:ℚ) := by
        nlinarith [hcomb, hQ2]
      have : (((10:Int) ^ (prec-1) : Int) : ℚ) - 1 < (j2:ℚ) := by
        rw [hPcast1]
        linarith
      have h4 : ((10:Int) ^ (prec-1) : Int) - 1 < j2 := by exact_mod_cast this
      omega
    have hb1 : w1 ≤ (10:ℚ)^((prec:Int) + t1) := by
      rw [hw1, ← q10_merge]
      have : (j1:ℚ) ≤ (10:ℚ)^((prec:Int)) := by
        rw [← hPnat, ← hPcast]
        exact_mod_cast hj1le
      nlinarith
    have hb2 : (10:ℚ)^((prec:Int) - 1 + t2) ≤ w2 := by
      rw [hw2, show (prec:Int) - 1 + t2 = ((prec-1 : Nat) : Int) + t2 by
            have : (0:Nat) < prec := by norm_num [prec]
            omega, ← q10_merge]
      have : (10:ℚ)^(((prec-1:Nat)):Int) ≤ (j2:ℚ) := by
        rw [← hPcast1]
        exact_mod_cast hj2ge
      nlinarith
    have hmid : (10:ℚ)^((prec:Int) + t1) ≤ (10:ℚ)^((prec:Int) - 1 + t2) :=
      zpow_le_zpow_right₀ (by norm_num) (by omega)
    linarith
  · subst heq
    by_contra hcon
    push_neg at hcon
    have hjlt : j2 < j1 := by
      rw [hw1, hw2] at hcon
      exact_mod_cast (mul_lt_mul_right hQ1).1 hcon
    have hj1q : (j2:ℚ) + 1 ≤ (j1:ℚ) := by exact_mod_cast hjlt
    have hww : w2 + (10:ℚ)^t1 ≤ w1 := by
      rw [hw1, hw2]
      nlinarith
    have heqv : v1 = v2 := by linarith
    have heqw1 : 2*(w1 - v1) = (10:ℚ)^t1 := by linarith
    have heqw2 : 2*(v2 - w2) = (10:ℚ)^t1 := by linarith
    have htie1 : 2 ∣ j1 := by
      apply ht1
      rw [abs_of_nonneg (by linarith : (0:ℚ) ≤ w1 - v1)]
      linarith
    have htie2 : 2 ∣ j2 := by
      apply ht2
      rw [abs_of_nonpos (by linarith : w2 - v2 ≤ 0)]
      linarith
    have hj12 : j1 = j2 + 1 := by
      have hqq : (j1:ℚ) * (10:ℚ)^t1 = ((j2:ℚ)+1) * (10:ℚ)^t1 := by
        rw [← hw1]
        have : w1 = w2 + (10:ℚ)^t1 := by linarith
        rw [this, hw2]
        ring
      have := mul_right_cancel₀ (ne_of_gt hQ1) hqq
      exact_mod_cast this
    omega
  · have hchain1 : (10:ℚ)^((prec:Int) + t2) ≤ (10:ℚ)^((prec:Int) - 1 + t1) :=
      zpow_le_zpow_right₀ (by norm_num) (by omega)
    have hveq : v1 = v2 := le_antisymm hv (by linarith)
    have hv1eq : v1 = (10:ℚ)^((prec:Int) - 1 + t1) := le_antisymm (by linarith) hf1a
    have hv2eq : v2 = (10:ℚ)^((prec:Int) + t2) := le_antisymm hf2b (by linarith)
    have hprecpos : (0:Nat) < prec := by norm_num [prec]
    have hw1v : w1 = v1 := by
      have hsplit : v1 = (10:ℚ)^(((prec-1:Nat)):Int) * (10:ℚ)^t1 := by
        rw [hv1eq, show (prec:Int) - 1 + t1 = ((prec-1 : Nat) : Int) + t1 by omega,
          ← q10_merge]
      have hj1eq : j1 = (10:Int) ^ (prec-1) := by
        have hup : 2*((j1:ℚ) - (((10:Int)^(prec-1):Int):ℚ)) * (10:ℚ)^t1 ≤ (10:ℚ)^t1 := by
          have h6 := e1a
          rw [hw1, hsplit] at h6
          rw [hPcast1]
          nlinarith [h6]
        have hdn : 2*((((10:Int)^(prec-1):Int):ℚ) - (j1:ℚ)) * (10:ℚ)^t1 ≤ (10:ℚ)^t1 := by
          have h6 := e1b
          rw [hw1, hsplit] at h6
          rw [hPcast1]
          nlinarith [h6]
        have hu2 : 2*((j1:ℚ) - (((10:Int)^(prec-1):Int):ℚ)) ≤ 1 := by
          nlinarith [hup, hQ1]
        have hd2 : 2*((((10:Int)^(prec-1):Int):ℚ) - (j1:ℚ)) ≤ 1 := by
          nlinarith [hdn, hQ1]
        have hu3 : 2*(j1 - (10:Int)^(prec-1)) ≤ 1 := by exact_mod_cast hu2
        have hd3 : 2*((10:Int)^(prec-1) - j1) ≤ 1 := by exact_mod_cast hd2
        omega
      rw [hw1, hj1eq, hPcast1, hsplit]
    have hw2v : w2 = v2 := by
      have hsplit : v2 = (10:ℚ)^(((prec:Nat)):Int) * (10:ℚ)^t2 := by
        rw [hv2eq, q10_merge]
      have hj2eq : j2 = (10:Int) ^ prec := by
        have hup : 2*((j2:ℚ) - (((10:Int)^prec:Int):ℚ)) * (10:ℚ)^t2 ≤ (10:ℚ)^t2 := by
          have h6 := e2a
          rw [hw2, hsplit] at h6
          rw [hPcast]
          nlinarith [h6]
        have hdn : 2*((((10:Int)^prec:Int):ℚ) - (j2:ℚ)) * (10:ℚ)^t2 ≤ (10:ℚ)^t2 := by
          have h6 := e2b
          rw [hw2, hsplit] at h6
          rw [hPcast]
          nlinarith [h6]
        have hu2 : 2*(j2 - (10:Int)^prec) ≤ 1 := by
          have h7 : 2*((j2:ℚ) - (((10:Int)^prec:Int):ℚ)) ≤ 1 := by nlinarith [hup, hQ2]
          exact_mod_cast h7
        have hd2 : 2*((10:Int)^prec - j2) ≤ 1 := by
          have h7 : 2*((((10:Int)^prec:Int):ℚ) - (j2:ℚ)) ≤ 1 := by nlinarith [hdn, hQ2]
          exact_mod_cast h7
        omega
      rw [hw2, hj2eq, hPcast, hsplit]
    rw [hw1v, hw2v, hveq]

lemma roundsTo_eq {v w1 w2 : ℚ} (h1 : RoundsTo v w1) (h2 : RoundsTo v w2) : w1 = w2 :=
  le_antisymm (roundsTo_mono le_rfl h1 h2) (roundsTo_mono le_rfl h2 h1)

lemma roundsTo_pos {v w : ℚ} (h : RoundsTo v w) (hv : 0 < v) : 0 < w := by
  obtain ⟨t, j, hw, hfa, hfb, he, ht⟩ := h
  have hQ : (0:ℚ) < (10:ℚ) ^ t := q10_pos t
  have e1b : 2*(v - w) ≤ (10:ℚ) ^ t := by
    have := neg_abs_le (w - v)
    linarith
  have hsplit : (10:ℚ)^((prec:Int) - 1 + t) = (10:ℚ)^((prec:Int) - 1) * (10:ℚ)^t :=
    (q10_merge _ _).symm
  have hbig : (1:ℚ) ≤ (10:ℚ)^((prec:Int) - 1) := by
    have := zpow_le_zpow_right₀ (show (1:ℚ) ≤ 10 by norm_num)
      (show (0:Int) ≤ (prec:Int) - 1 by norm_num [prec])
    simpa using this
  nlinarith [hfa]

lemma roundsTo_self (j sE : Int) (hj : 1 ≤ j) (hdg : ndigits j.natAbs ≤ prec) :
    RoundsTo ((j:ℚ) * (10:ℚ) ^ sE) ((j:ℚ) * (10:ℚ) ^ sE) := by
  have hn : 1 ≤ j.natAbs := by omega
  have hlb := ndigits_lb j.natAbs hn
  have hub := ndigits_ub j.natAbs hn
  have hdgpos := ndigits_pos j.natAbs hn
  set dg := ndigits j.natAbs with hdgdef
  have hjq : (j:ℚ) = ((j.natAbs : Nat) : ℚ) := by
    have h1 : j = ((j.natAbs : Nat) : Int) := by omega
    have h2 : ((j : Int) : ℚ) = (((j.natAbs : Nat) : Int) : ℚ) :=
      congrArg (fun t : Int => (t:ℚ)) h1
    rw [Int.cast_natCast] at h2
    exact h2
  refine ⟨sE + (dg:Int) - prec, j * 10 ^ (prec - dg), ?_, ?_, ?_, ?_, ?_⟩
  · push_cast
    rw [← zpow_natCast (10:ℚ) (prec - dg), mul_assoc, q10_merge, Nat.cast_sub hdg]
    rw [show ((prec:Int) - (dg:Int)) + (sE + (dg:Int) - (prec:Int)) = sE from by ring]
  · rw [show (prec:Int) - 1 + (sE + (dg:Int) - prec) = ((dg - 1 : Nat) : Int) + sE by omega,
      ← q10_merge, hjq]
    have h1 : ((10 ^ (dg-1) : Nat) : ℚ) ≤ ((j.natAbs : Nat) : ℚ) := by exact_mod_cast hlb
    rw [q10nat] at h1
    nlinarith [q10_pos sE]
  · rw [show (prec:Int) + (sE + (dg:Int) - prec) = ((dg : Nat) : Int) + sE by omega,
      ← q10_merge, hjq]
    have h1 : ((j.natAbs : Nat) : ℚ) ≤ ((10 ^ dg : Nat) : ℚ) := by
      exact_mod_cast le_of_lt hub
    rw [q10nat] at h1
    nlinarith [q10_pos sE]
  · rw [sub_self, abs_zero, mul_zero]
    exact le_of_lt (q10_pos _)
  · intro htie
    rw [sub_self, abs_zero, mul_zero] at htie
    exact absurd htie.symm (ne_of_gt (q10_pos _))

/-! The concrete rounding routines produce correct roundings. -/

lemma roundsTo_of_rdivHE (N M : Nat) (hM : 0 < M) (t : Int)
    (hlo : 10 ^ (prec-1) * M ≤ N) (hhi : N ≤ 10 ^ prec * M) :
    RoundsTo ((N:ℚ) / (M:ℚ) * (10:ℚ) ^ t) ((rdivHE N M : ℚ) * (10:ℚ) ^ t) := by
  obtain ⟨hc1, hc2, hc3⟩ := rdivHE_char N M hM
  have hMq : (0:ℚ) < (M:ℚ) := by exact_mod_cast hM
  have hQ : (0:ℚ) < (10:ℚ) ^ t := q10_pos t
  have hprecpos : (0:Nat) < prec := by norm_num [prec]
  have hc1q : 2*(N:ℚ) ≤ 2*((rdivHE N M : Nat):ℚ)*M + M := by exact_mod_cast hc1
  have hc2q : 2*((rdivHE N M : Nat):ℚ)*M ≤ 2*(N:ℚ) + M := by exact_mod_cast hc2
  have habs : |((rdivHE N M : Nat):ℚ) - (N:ℚ)/(M:ℚ)| ≤ 1/2 := by
    rw [abs_le]
    constructor
    · rw [neg_le, neg_sub, sub_le_iff_le_add, div_le_iff₀ hMq]
      nlinarith
    · have h8 : ((rdivHE N M : Nat):ℚ) - 1/2 ≤ (N:ℚ)/(M:ℚ) := by
        rw [le_div_iff₀ hMq]
        nlinarith
      linarith
  refine ⟨t, ((rdivHE N M : Nat) : Int), ?_, ?_, ?_, ?_, ?_⟩
  · push_cast
    ring
  · rw [show (prec:Int) - 1 + t = ((prec-1 : Nat) : Int) + t from by omega, ← q10_merge,
      ← q10nat]
    have h1 : ((10 ^ (prec-1) : ℕ):ℚ) ≤ (N:ℚ)/(M:ℚ) := by
      rw [le_div_iff₀ hMq]
      exact_mod_cast hlo
    nlinarith
  · rw [show (prec:Int) + t = ((prec : Nat) : Int) + t from rfl, ← q10_merge, ← q10nat]
    have h1 : (N:ℚ)/(M:ℚ) ≤ ((10 ^ prec : ℕ):ℚ) := by
      rw [div_le_iff₀ hMq]
      exact_mod_cast hhi
    nlinarith
  · rw [← sub_mul, abs_mul, abs_of_pos hQ]
    nlinarith
  · intro htie
    rw [← sub_mul, abs_mul, abs_of_pos hQ] at htie
    have habs2 : |((rdivHE N M : Nat):ℚ) - (N:ℚ)/(M:ℚ)| = 1/2 := by
      have h2 : 2 * |((rdivHE N M : Nat):ℚ) - (N:ℚ)/(M:ℚ)| = 1 := by
        have := mul_right_cancel₀ (ne_of_gt hQ)
          (show (2 * |((rdivHE N M : Nat):ℚ) - (N:ℚ)/(M:ℚ)|) * (10:ℚ)^t = 1 * (10:ℚ)^t from by
            rw [one_mul]
            linarith [htie])
        exact this
      linarith
    rcases (abs_eq (by norm_num : (0:ℚ) ≤ 1/2)).1 habs2 with hcase | hcase
    · have : 2*((rdivHE N M : Nat):ℚ)*M = 2*(N:ℚ) + M := by
        have h3 : ((rdivHE N M : Nat):ℚ) - (N:ℚ)/(M:ℚ) = 1/2 := hcase
        field_simp at h3
        nlinarith
      have h4 : 2*(rdivHE N M)*M = 2*N + M := by exact_mod_cast this
      have := hc3 (Or.inl h4)
      omega
    · have : 2*(N:ℚ) = 2*((rdivHE N M : Nat):ℚ)*M + M := by
        have h3 : ((rdivHE N M : Nat):ℚ) - (N:ℚ)/(M:ℚ) = -(1/2) := hcase
        field_simp at h3
        nlinarith
      have h4 : 2*N = 2*(rdivHE N M)*M + M := by exact_mod_cast this
      have := hc3 (Or.inr h4)
      omega

lemma int_cast_natAbs_pos (m : Int) (h : 0 < m) : ((m.natAbs : Nat) : ℚ) = (m : ℚ) := by
  have h1 : ((m.natAbs : Nat) : Int) = m := by omega
  have h2 : (((m.natAbs : Nat) : Int) : ℚ) = (m : ℚ) :=
    congrArg (fun t : Int => (t:ℚ)) h1
  rw [Int.cast_natCast] at h2
  exact h2

lemma roundD_roundsTo (x : Dec) (hm : 0 < x.m) : RoundsTo (val x) (val (roundD x)) := by
  by_cases hdg : ndigits x.m.natAbs ≤ prec
  · rw [roundD_eq_self x hdg]
    show RoundsTo ((x.m : ℚ) * (10:ℚ) ^ x.e) ((x.m : ℚ) * (10:ℚ) ^ x.e)
    exact roundsTo_self x.m x.e (by omega) hdg
  · push_neg at hdg
    set n := x.m.natAbs with hndef
    set dg := ndigits n with hdgdef
    set k := dg - prec with hkdef
    have hn1 : 1 ≤ n := Int.natAbs_pos.2 (by omega)
    have hlb := ndigits_lb n hn1
    have hub := ndigits_ub n hn1
    have hlo : 10 ^ (prec-1) * 10 ^ k ≤ n := by
      rw [← pow_add]
      have hprecpos : (0:Nat) < prec := by norm_num [prec]
      rw [show prec - 1 + k = dg - 1 from by omega]
      exact hlb
    have hhi : n ≤ 10 ^ prec * 10 ^ k := by
      rw [← pow_add]
      rw [show prec + k = dg from by omega, hdgdef]
      omega
    have hinst := roundsTo_of_rdivHE n (10 ^ k) (pow_pos (by norm_num) _)
      (x.e + (k : Int)) hlo hhi
    have hv : (n:ℚ)/((10 ^ k : ℕ):ℚ) * (10:ℚ) ^ (x.e + (k : Int)) = val x := by
      have h10 : (10:ℚ) ^ ((k : Nat) : Int) ≠ 0 := ne_of_gt (q10_pos _)
      rw [val, q10nat, ← q10_merge, int_cast_natAbs_pos x.m hm, div_mul_eq_mul_div,
        div_eq_iff h10]
      ring
    have hw : ((rdivHE n (10 ^ k) : Nat):ℚ) * (10:ℚ) ^ (x.e + (k : Int)) =
        val (roundD x) := by
      rw [val, roundD_m_def, roundD_e_def, Int.sign_eq_one_of_pos hm, one_mul, ← hndef,
        ← hdgdef, ← hkdef]
      rw [Int.cast_natCast]
    rw [hv, hw] at hinst
    exact hinst

/-! RoundsTo for each decimal operation on positive operands. -/

lemma addD_roundsTo (x y : Dec) (hx : 0 < x.m) (hy : 0 ≤ y.m) :
    RoundsTo (val x + val y) (val (addD x y)) := by
  have hsum : 0 < (⟨x.m * 10 ^ (x.e - min x.e y.e).toNat +
      y.m * 10 ^ (y.e - min x.e y.e).toNat, min x.e y.e⟩ : Dec).m := by
    show 0 < x.m * 10 ^ (x.e - min x.e y.e).toNat + y.m * 10 ^ (y.e - min x.e y.e).toNat
    have h1 : 0 < x.m * 10 ^ (x.e - min x.e y.e).toNat := mul_pos hx (zpow_int_pos _)
    have h2 : 0 ≤ y.m * 10 ^ (y.e - min x.e y.e).toNat :=
      mul_nonneg hy (le_of_lt (zpow_int_pos _))
    omega
  have h := roundD_roundsTo _ hsum
  rw [val_addD_exact] at h
  exact h

lemma mulD_roundsTo (x y : Dec) (hx : 0 < x.m) (hy : 0 < y.m) :
    RoundsTo (val x * val y) (val (mulD x y)) := by
  have hprod : 0 < (⟨x.m * y.m, x.e + y.e⟩ : Dec).m := mul_pos hx hy
  have h := roundD_roundsTo _ hprod
  rw [val_mulD_exact] at h
  exact h

lemma div_pow_pair (A B : Nat) (E F : Int) (hB : 0 < B) :
    ((A:ℚ) * (10:ℚ) ^ E) / ((B:ℚ) * (10:ℚ) ^ F) = (A:ℚ)/(B:ℚ) * (10:ℚ) ^ (E - F) := by
  rw [mul_div_mul_comm, zpow_sub₀ (by norm_num : (10:ℚ) ≠ 0)]

lemma divD_roundsTo (x y : Dec) (hx : 0 < x.m) (hy : 0 < y.m) :
    RoundsTo (val x / val y) (val (divD x y)) := by
  set a := x.m.natAbs with hadef
  set b := y.m.natAbs with hbdef
  have ha1 : 1 ≤ a := Int.natAbs_pos.2 (by omega)
  have hb1 : 1 ≤ b := Int.natAbs_pos.2 (by omega)
  have hM := divM_pos a b hb1
  have hMq : (0:ℚ) < ((divM a b : Nat):ℚ) := by exact_mod_cast hM
  obtain ⟨hlo0, hhi0⟩ := div_scale_bounds a b ha1 hb1
  have hK12 : ((divK a b).toNat : Int) - ((-(divK a b)).toNat : Int) = divK a b := by omega
  have hvq : val x / val y = (a:ℚ)/(b:ℚ) * (10:ℚ) ^ (x.e - y.e) := by
    rw [val, val, ← int_cast_natAbs_pos x.m hx, ← int_cast_natAbs_pos y.m hy,
      ← hadef, ← hbdef, div_pow_pair a b x.e y.e (by omega)]
  have hNq : ((divN a b : Nat):ℚ) = (a:ℚ) * (10:ℚ) ^ (((divK a b).toNat : Nat) : Int) := by
    unfold divN
    push_cast
    rw [zpow_natCast]
  have hMq2 : ((divM a b : Nat):ℚ) = (b:ℚ) * (10:ℚ) ^ ((((-(divK a b)).toNat : Nat)) : Int) := by
    unfold divM
    push_cast
    rw [zpow_natCast]
  unfold divD
  rw [if_neg (ne_of_gt hy), if_neg (ne_of_gt hx)]
  split
  · next hcond =>
    have hhi : divN a b ≤ 10 ^ prec * divM a b := by
      exact Nat.le_of_lt ((Nat.div_lt_iff_lt_mul hM).1 hcond)
    have hinst := roundsTo_of_rdivHE (divN a b) (divM a b) hM
      (x.e - y.e - divK a b) hlo0 hhi
    have hv : ((divN a b : Nat):ℚ)/((divM a b : Nat):ℚ) *
        (10:ℚ) ^ (x.e - y.e - divK a b) = val x / val y := by
      rw [hNq, hMq2, div_pow_pair a b _ _ (by omega), mul_assoc, q10_merge, hvq]
      congr 2
      omega
    have hw : ((rdivHE (divN a b) (divM a b) : Nat):ℚ) *
        (10:ℚ) ^ (x.e - y.e - divK a b) =
        val (⟨(x.m.sign * y.m.sign) * (rdivHE (divN a b) (divM a b) : Nat),
          x.e - y.e - divK a b⟩ : Dec) := by
      rw [val]
      dsimp only
      rw [Int.sign_eq_one_of_pos hx, Int.sign_eq_one_of_pos hy, one_mul, one_mul,
        Int.cast_natCast]
    rw [hv, hw] at hinst
    exact hinst
  · next hcond =>
    push_neg at hcond
    have hM10 : (0:Nat) < divM a b * 10 := by omega
    have hlo2 : 10 ^ (prec-1) * (divM a b * 10) ≤ divN a b := by
      have h4 : 10 ^ prec * divM a b ≤ divN a b :=
        (Nat.le_div_iff_mul_le hM).1 hcond
      have hEq : 10 ^ (prec-1) * (divM a b * 10) = 10 ^ prec * divM a b := by
        have hp : prec - 1 + 1 = prec := by norm_num [prec]
        calc 10 ^ (prec-1) * (divM a b * 10) = 10 ^ (prec-1) * 10 * divM a b := by ring
          _ = 10 ^ (prec-1+1) * divM a b := by rw [pow_succ]
          _ = 10 ^ prec * divM a b := by rw [hp]
      rw [hEq]
      exact h4
    have hhi2 : divN a b ≤ 10 ^ prec * (divM a b * 10) := by
      have hEq : 10 ^ prec * (divM a b * 10) = 10 ^ (prec+1) * divM a b := by
        calc 10 ^ prec * (divM a b * 10) = 10 ^ prec * 10 * divM a b := by ring
          _ = 10 ^ (prec+1) * divM a b := by rw [pow_succ]
      rw [hEq]
      exact Nat.le_of_lt hhi0
    have hinst := roundsTo_of_rdivHE (divN a b) (divM a b * 10) hM10
      (x.e - y.e - divK a b + 1) hlo2 hhi2
    have hv : ((divN a b : Nat):ℚ)/((divM a b * 10 : Nat):ℚ) *
        (10:ℚ) ^ (x.e - y.e - divK a b + 1) = val x / val y := by
      have hM10q : ((divM a b * 10 : Nat):ℚ) = (b:ℚ) *
          (10:ℚ) ^ (((((-(divK a b)).toNat : Nat)) : Int) + 1) := by
        push_cast
        rw [hMq2]
        rw [zpow_add₀ (by norm_num : (10:ℚ) ≠ 0)]
        push_cast
        ring
      rw [hNq, hM10q, div_pow_pair a b _ _ (by omega), mul_assoc, q10_merge, hvq]
      congr 2
      omega
    have hw : ((rdivHE (divN a b) (divM a b * 10) : Nat):ℚ) *
        (10:ℚ) ^ (x.e - y.e - divK a b + 1) =
        val (⟨(x.m.sign * y.m.sign) * (rdivHE (divN a b) (divM a b * 10) : Nat),
          x.e - y.e - divK a b + 1⟩ : Dec) := by
      rw [val]
      dsimp only
      rw [Int.sign_eq_one_of_pos hx, Int.sign_eq_one_of_pos hy, one_mul, one_mul,
        Int.cast_natCast]
    rw [hv, hw] at hinst
    exact hinst

/-! Correct rounding for the decimal square root.  The witness w is a
prec-digit decimal whose square brackets the radicand strictly: ties are
impossible because 4v is even at the tie while the tie square is odd. -/

def SqrtRounds (v w : ℚ) : Prop :=
  ∃ t r : Int, w = (r : ℚ) * (10:ℚ) ^ t ∧ 1 ≤ r ∧
    (10:ℚ) ^ (2*(prec : Int) - 2 + 2*t) ≤ v ∧
    v ≤ (10:ℚ) ^ (2*(prec : Int) + 2*t) ∧
    (2*(r:ℚ) - 1)^2 * (10:ℚ) ^ (2*t) < 4 * v ∧
    4 * v < (2*(r:ℚ) + 1)^2 * (10:ℚ) ^ (2*t)

lemma sqrtRounds_pos {v w : ℚ} (h : SqrtRounds v w) : 0 < w := by
  obtain ⟨t, r, hw, hr, _, _, _, _⟩ := h
  have hrq : (0:ℚ) < (r:ℚ) := by exact_mod_cast (show (0:Int) < r from by omega)
  rw [hw]
  exact mul_pos hrq (q10_pos t)

lemma sqrtRounds_r_bounds {v : ℚ} (t r : Int) (hr : 1 ≤ r)
    (hlo : (10:ℚ) ^ (2*(prec : Int) - 2 + 2*t) ≤ v)
    (hhi : v ≤ (10:ℚ) ^ (2*(prec : Int) + 2*t))
    (hsl : (2*(r:ℚ) - 1)^2 * (10:ℚ) ^ (2*t) < 4 * v)
    (hsu : 4 * v < (2*(r:ℚ) + 1)^2 * (10:ℚ) ^ (2*t)) :
    (10:Int) ^ (prec - 1) ≤ r ∧ r ≤ (10:Int) ^ prec := by
  have hQ : (0:ℚ) < (10:ℚ) ^ (2*t) := q10_pos _
  have hprecpos : (0:Nat) < prec := by norm_num [prec]
  have hPcast : (((10:Int) ^ prec : Int) : ℚ) = (10:ℚ) ^ ((prec : Nat) : Int) :=
    q10intpow prec
  have hPcast1 : (((10:Int) ^ (prec-1) : Int) : ℚ) = (10:ℚ) ^ (((prec-1 : Nat)) : Int) :=
    q10intpow (prec-1)
  have hsplitU : (10:ℚ) ^ (2*(prec : Int) + 2*t) =
      (10:ℚ) ^ (((prec : Nat)) : Int) * ((10:ℚ) ^ (((prec : Nat)) : Int) * (10:ℚ) ^ (2*t)) := by
    rw [q10_merge, q10_merge,
      show ((prec : Nat) : Int) + (((prec : Nat) : Int) + 2*t) = 2*(prec : Int) + 2*t from by
        omega]
  have hsplitL : (10:ℚ) ^ (2*(prec : Int) - 2 + 2*t) =
      (10:ℚ) ^ (((prec-1 : Nat)) : Int) *
        ((10:ℚ) ^ (((prec-1 : Nat)) : Int) * (10:ℚ) ^ (2*t)) := by
    rw [q10_merge, q10_merge,
      show ((prec-1 : Nat) : Int) + (((prec-1 : Nat) : Int) + 2*t) =
          2*(prec : Int) - 2 + 2*t from by omega]
  constructor
  · have h1 : 4 * ((10:ℚ) ^ (((prec-1 : Nat)) : Int))^2 * (10:ℚ) ^ (2*t) <
        (2*(r:ℚ) + 1)^2 * (10:ℚ) ^ (2*t) := by
      have h0 := lt_of_le_of_lt (le_trans (le_of_eq hsplitL.symm) hlo)
        (lt_of_le_of_lt (le_refl v) (by linarith : v < (2*(r:ℚ) + 1)^2 * (10:ℚ) ^ (2*t) / 4))
      nlinarith [hlo, hsu, hsplitL]
    have h2 : 4 * ((10:ℚ) ^ (((prec-1 : Nat)) : Int))^2 < (2*(r:ℚ) + 1)^2 := by
      nlinarith [h1, hQ]
    have h3 : 4 * ((10:Int) ^ (prec-1))^2 < (2*r + 1)^2 := by
      rw [← hPcast1] at h2
      exact_mod_cast h2
    have h0z : (0:Int) < (10:Int) ^ (prec-1) := pow_pos (by norm_num) _
    have h4 : 2*(10:Int) ^ (prec-1) < 2*r + 1 := by
      nlinarith [h3, h0z, hr, sq_nonneg (2*r + 1 - 2*(10:Int) ^ (prec-1)),
        sq_nonneg (2*r + 1 + 2*(10:Int) ^ (prec-1))]
    omega
  · have h1 : (2*(r:ℚ) - 1)^2 * (10:ℚ) ^ (2*t) <
        4 * ((10:ℚ) ^ (((prec : Nat)) : Int))^2 * (10:ℚ) ^ (2*t) := by
      nlinarith [hsl, hhi, hsplitU]
    have h2 : (2*(r:ℚ) - 1)^2 < 4 * ((10:ℚ) ^ (((prec : Nat)) : Int))^2 := by
      nlinarith [h1, hQ]
    have h3 : (2*r - 1)^2 < 4 * ((10:Int) ^ prec)^2 := by
      rw [← hPcast] at h2
      exact_mod_cast h2
    have h0z : (0:Int) < (10:Int) ^ prec := pow_pos (by norm_num) _
    have h4 : 2*r - 1 < 2*(10:Int) ^ prec := by
      nlinarith [h3, h0z, hr, sq_nonneg (2*r - 1 - 2*(10:Int) ^ prec),
        sq_nonneg (2*r - 1 + 2*(10:Int) ^ prec)]
    omega

lemma sqrtRounds_mono {v1 v2 w1 w2 : ℚ} (hv : v1 ≤ v2)
    (h1 : SqrtRounds v1 w1) (h2 : SqrtRounds v2 w2) : w1 ≤ w2 := by
  obtain ⟨t1, r1, hw1, hr1, hlo1, hhi1, hsl1, hsu1⟩ := h1
  obtain ⟨t2, r2, hw2, hr2, hlo2, hhi2, hsl2, hsu2⟩ := h2
  obtain ⟨hr1lo, hr1hi⟩ := sqrtRounds_r_bounds t1 r1 hr1 hlo1 hhi1 hsl1 hsu1
  obtain ⟨hr2lo, hr2hi⟩ := sqrtRounds_r_bounds t2 r2 hr2 hlo2 hhi2 hsl2 hsu2
  have hprecpos : (0:Nat) < prec := by norm_num [prec]
  have hPcast : (((10:Int) ^ prec : Int) : ℚ) = (10:ℚ) ^ ((prec : Nat) : Int) :=
    q10intpow prec
  have hPcast1 : (((10:Int) ^ (prec-1) : Int) : ℚ) = (10:ℚ) ^ (((prec-1 : Nat)) : Int) :=
    q10intpow (prec-1)
  have hPnat : (((prec : Nat)) : Int) = (prec : Int) := rfl
  have hQ1 : (0:ℚ) < (10:ℚ) ^ t1 := q10_pos t1
  have hQ2 : (0:ℚ) < (10:ℚ) ^ t2 := q10_pos t2
  rcases lt_trichotomy t1 t2 with hlt | heq | hgt
  · have hb1 : w1 ≤ (10:ℚ) ^ ((prec : Int) + t1) := by
      rw [hw1, ← q10_merge]
      have : (r1:ℚ) ≤ (10:ℚ) ^ ((prec : Int)) := by
        rw [← hPnat, ← hPcast]
        exact_mod_cast hr1hi
      nlinarith
    have hb2 : (10:ℚ) ^ ((prec : Int) - 1 + t2) ≤ w2 := by
      rw [hw2, show (prec : Int) - 1 + t2 = ((prec-1 : Nat) : Int) + t2 from by omega,
        ← q10_merge]
      have : (10:ℚ) ^ (((prec-1 : Nat)) : Int) ≤ (r2:ℚ) := by
        rw [← hPcast1]
        exact_mod_cast hr2lo
      nlinarith
    have hmid : (10:ℚ) ^ ((prec : Int) + t1) ≤ (10:ℚ) ^ ((prec : Int) - 1 + t2) :=
      zpow_le_zpow_right₀ (by norm_num) (by omega)
    linarith
  · subst heq
    by_contra hcon
    push_neg at hcon
    have hrlt : r2 < r1 := by
      rw [hw1, hw2] at hcon
      exact_mod_cast (mul_lt_mul_right hQ1).1 hcon
    have hkey : (2*(r2:ℚ) + 1)^2 ≤ (2*(r1:ℚ) - 1)^2 := by
      have hq : (r2:ℚ) + 1 ≤ (r1:ℚ) := by exact_mod_cast hrlt
      have h2 : (1:ℚ) ≤ (r2:ℚ) := by exact_mod_cast hr2
      nlinarith
    have hQ : (0:ℚ) < (10:ℚ) ^ (2*t1) := q10_pos _
    nlinarith [hsu2, hsl1, hkey, hQ, hv]
  · have hchain1 : (10:ℚ) ^ (2*(prec : Int) + 2*t2) ≤
        (10:ℚ) ^ (2*(prec : Int) - 2 + 2*t1) :=
      zpow_le_zpow_right₀ (by norm_num) (by omega)
    have hveq : v1 = v2 := le_antisymm hv (le_trans hhi2 (le_trans hchain1 hlo1))
    have hv1eq : v1 = (10:ℚ) ^ (2*(prec : Int) - 2 + 2*t1) := by
      apply le_antisymm
      · rw [hveq]
        exact le_trans hhi2 hchain1
      · exact hlo1
    have hv2eq : v2 = (10:ℚ) ^ (2*(prec : Int) + 2*t2) := by
      apply le_antisymm hhi2
      calc (10:ℚ) ^ (2*(prec : Int) + 2*t2)
          ≤ (10:ℚ) ^ (2*(prec : Int) - 2 + 2*t1) := hchain1
        _ ≤ v1 := hlo1
        _ = v2 := hveq
    have hteq : t1 = t2 + 1 := by
      by_contra hne
      have hgt2 : t2 + 2 ≤ t1 := by omega
      have hstrict : (10:ℚ) ^ (2*(prec : Int) + 2*t2) <
          (10:ℚ) ^ (2*(prec : Int) - 2 + 2*t1) :=
        zpow_lt_zpow_right₀ (by norm_num) (by omega)
      rw [← hv1eq, ← hv2eq, hveq] at hstrict
      exact lt_irrefl _ hstrict
    have hsplitL : (10:ℚ) ^ (2*(prec : Int) - 2 + 2*t1) =
        (10:ℚ) ^ (((prec-1 : Nat)) : Int) *
          ((10:ℚ) ^ (((prec-1 : Nat)) : Int) * (10:ℚ) ^ (2*t1)) := by
      rw [q10_merge, q10_merge,
        show ((prec-1 : Nat) : Int) + (((prec-1 : Nat) : Int) + 2*t1) =
            2*(prec : Int) - 2 + 2*t1 from by omega]
    have hsplitU : (10:ℚ) ^ (2*(prec : Int) + 2*t2) =
        (10:ℚ) ^ (((prec : Nat)) : Int) *
          ((10:ℚ) ^ (((prec : Nat)) : Int) * (10:ℚ) ^ (2*t2)) := by
      rw [q10_merge, q10_merge,
        show ((prec : Nat) : Int) + (((prec : Nat) : Int) + 2*t2) =
            2*(prec : Int) + 2*t2 from by omega]
    have hQs1 : (0:ℚ) < (10:ℚ) ^ (2*t1) := q10_pos _
    have hQs2 : (0:ℚ) < (10:ℚ) ^ (2*t2) := q10_pos _
    have h7 : (2*(r1:ℚ) - 1)^2 < 4 * ((10:ℚ) ^ (((prec-1 : Nat)) : Int))^2 := by
      have h6 := hsl1
      rw [hv1eq, hsplitL] at h6
      nlinarith [h6, hQs1]
    have h8 : (2*r1 - 1)^2 < 4 * ((10:Int) ^ (prec-1))^2 := by
      rw [← hPcast1] at h7
      exact_mod_cast h7
    have h0z1 : (0:Int) < (10:Int) ^ (prec-1) := pow_pos (by norm_num) _
    have h9 : 2*r1 - 1 < 2*(10:Int) ^ (prec-1) := by
      nlinarith [h8, h0z1, hr1, sq_nonneg (2*r1 - 1 - 2*(10:Int) ^ (prec-1)),
        sq_nonneg (2*r1 - 1 + 2*(10:Int) ^ (prec-1))]
    have hr1b : r1 ≤ (10:Int) ^ (prec-1) := by omega
    have h10 : 4 * ((10:ℚ) ^ (((prec : Nat)) : Int))^2 < (2*(r2:ℚ) + 1)^2 := by
      have h6 := hsu2
      rw [hv2eq, hsplitU] at h6
      nlinarith [h6, hQs2]
    have h11 : 4 * ((10:Int) ^ prec)^2 < (2*r2 + 1)^2 := by
      rw [← hPcast] at h10
      exact_mod_cast h10
    have h0z2 : (0:Int) < (10:Int) ^ prec := pow_pos (by norm_num) _
    have h12 : 2*(10:Int) ^ prec < 2*r2 + 1 := by
      nlinarith [h11, h0z2, hr2, sq_nonneg (2*r2 + 1 - 2*(10:Int) ^ prec),
        sq_nonneg (2*r2 + 1 + 2*(10:Int) ^ prec)]
    have hr2b : (10:Int) ^ prec ≤ r2 := by omega
    have hb1 : w1 ≤ (10:ℚ) ^ (((prec-1 : Nat)) : Int) * (10:ℚ) ^ t1 := by
      rw [hw1]
      have : (r1:ℚ) ≤ (10:ℚ) ^ (((prec-1 : Nat)) : Int) := by
        rw [← hPcast1]
        exact_mod_cast hr1b
      nlinarith [hQ1]
    have hb2 : (10:ℚ) ^ (((prec : Nat)) : Int) * (10:ℚ) ^ t2 ≤ w2 := by
      rw [hw2]
      have : (10:ℚ) ^ (((prec : Nat)) : Int) ≤ (r2:ℚ) := by
        rw [← hPcast]
        exact_mod_cast hr2b
      nlinarith [hQ2]
    have hmid : (10:ℚ) ^ (((prec-1 : Nat)) : Int) * (10:ℚ) ^ t1 =
        (10:ℚ) ^ (((prec : Nat)) : Int) * (10:ℚ) ^ t2 := by
      rw [q10_merge, q10_merge]
      rw [show ((prec-1 : Nat) : Int) + t1 = ((prec : Nat) : Int) + t2 from by omega]
    linarith

lemma sqrtD_sqrtRounds (x : Dec) (hm : 0 < x.m)
    (hdg : ndigits x.m.natAbs ≤ 2*prec - 1) :
    SqrtRounds (val x) (val (sqrtD x)) := by
  have hprecpos : (0:Nat) < prec := by norm_num [prec]
  set n := x.m.natAbs with hndef
  have hn1 : 1 ≤ n := Int.natAbs_pos.2 (by omega)
  have hlb := ndigits_lb n hn1
  have hub := ndigits_ub n hn1
  have hdm1 := ndigits_pos n hn1
  set dm := ndigits n with hdmdef
  set E := sqrtE (dm : Int) x.e with hEdef
  have hdgz : (dm : Int) ≤ 2*(prec : Int) - 1 := by omega
  have hE0 : E = 2*(prec : Int) - dm ∨ E = 2*(prec : Int) - dm - 1 := by
    rw [hEdef]
    unfold sqrtE
    split
    · exact Or.inl rfl
    · exact Or.inr rfl
  have hEb1 : 2*(prec : Int) - dm - 1 ≤ E := by
    rcases hE0 with h | h <;> omega
  have hEb2 : E ≤ 2*(prec : Int) - dm := by
    rcases hE0 with h | h <;> omega
  have hEnn : 0 ≤ E := by omega
  have hEpar : (x.e - E) % 2 = 0 := by
    rw [hEdef]
    unfold sqrtE
    split
    · next hsp => omega
    · next hsp => omega
  have hEt : ((E.toNat : Nat) : Int) = E := Int.toNat_of_nonneg hEnn
  set t := (x.e - E) / 2 with htdef
  have hte : x.e - E = 2*t := by omega
  set N := sqrtN n x.e with hNdef
  have hNval : N = n * 10 ^ (E.toNat) := rfl
  have hNlo : 10 ^ (2*prec - 2) ≤ N := by
    have step : 10 ^ (dm-1) * 10 ^ (E.toNat) ≤ N := by
      rw [hNval]
      exact Nat.mul_le_mul_right _ hlb
    rw [← pow_add] at step
    have hexp : 2*prec - 2 ≤ dm - 1 + E.toNat := by omega
    exact le_trans (Nat.pow_le_pow_right (by norm_num) hexp) step
  have hNhi : N < 10 ^ (2*prec) := by
    have step : N < 10 ^ dm * 10 ^ (E.toNat) := by
      rw [hNval]
      exact (Nat.mul_lt_mul_right (pow_pos (by norm_num) _)).2 hub
    rw [← pow_add] at step
    have hexp : dm + E.toNat ≤ 2*prec := by omega
    exact lt_of_lt_of_le step (Nat.pow_le_pow_right (by norm_num) hexp)
  have hN1 : 1 ≤ N := by
    have h0 : 0 < 10 ^ (2*prec - 2) := pow_pos (by norm_num) _
    omega
  set s0 := isqrt N with hs0def
  have hs0l : s0*s0 ≤ N := isqrt_le N
  have hs0u : N < (s0+1)*(s0+1) := lt_succ_isqrt N
  have hs0p : 1 ≤ s0 := isqrt_pos N hN1
  set rr := sqrtR n x.e with hrrdef
  have hrrval : rr = if (2*s0+1)*(2*s0+1) ≤ 4*N then s0 + 1 else s0 := rfl
  have hbl : (2*(rr:Int) - 1)^2 < 4*(N:Int) := by
    rw [hrrval]
    split
    · next hc =>
      have hstrict : (2*s0+1)*(2*s0+1) < 4*N := by
        rcases Nat.lt_or_ge ((2*s0+1)*(2*s0+1)) (4*N) with h | h
        · exact h
        · exfalso
          have heq : (2*s0+1)*(2*s0+1) = 4*N := le_antisymm hc h
          have hmod : (2*s0+1) % 2 = 1 := by omega
          have hodd : ((2*s0+1)*(2*s0+1)) % 2 = 1 := by
            rw [Nat.mul_mod, hmod]
          rw [heq] at hodd
          omega
      have hz : ((2*s0+1)*(2*s0+1) : Nat) < (4*(N:Int)).toNat := by omega
      have hz2 : ((2*s0+1)*(2*s0+1) : Int) < 4*(N:Int) := by exact_mod_cast hstrict
      push_cast
      nlinarith [hz2]
    · next hc =>
      have hz : ((s0:Int))*(s0:Int) ≤ (N:Int) := by exact_mod_cast hs0l
      have hz1 : (1:Int) ≤ (s0:Int) := by exact_mod_cast hs0p
      push_cast
      nlinarith [hz, hz1]
  have hbu : 4*(N:Int) < (2*(rr:Int) + 1)^2 := by
    rw [hrrval]
    split
    · next hc =>
      have hz : (N:Int) < ((s0:Int)+1)*((s0:Int)+1) := by exact_mod_cast hs0u
      push_cast
      nlinarith [hz]
    · next hc =>
      push_neg at hc
      have hz : (4*(N:Int)) < (2*(s0:Int)+1)*(2*(s0:Int)+1) := by exact_mod_cast hc
      push_cast
      nlinarith [hz]
  have hrr1 : 1 ≤ rr := by
    rw [hrrval]
    split
    · omega
    · omega
  have hsd : sqrtD x = ⟨(rr : Int), t⟩ := by
    unfold sqrtD
    rw [if_neg (show ¬ x.m ≤ 0 from by omega)]
  have hvN : val x = ((N : Nat) : ℚ) * (10:ℚ) ^ (2*t) := by
    rw [val, ← int_cast_natAbs_pos x.m hm, ← hndef, hNval]
    push_cast
    rw [← zpow_natCast (10:ℚ) (E.toNat), mul_assoc, q10_merge,
      show ((E.toNat : Nat) : Int) + 2*t = x.e from by omega]
  rw [hvN, hsd]
  refine ⟨t, (rr : Int), ?_, ?_, ?_, ?_, ?_, ?_⟩
  · rw [val]
  · exact_mod_cast hrr1
  · rw [show 2*(prec : Int) - 2 + 2*t = ((2*prec - 2 : Nat) : Int) + 2*t from by omega,
      ← q10_merge]
    have h1 : ((10 ^ (2*prec-2) : Nat) : ℚ) ≤ ((N : Nat) : ℚ) := by exact_mod_cast hNlo
    rw [q10nat] at h1
    nlinarith [q10_pos (2*t)]
  · rw [show 2*(prec : Int) + 2*t = ((2*prec : Nat) : Int) + 2*t from by omega, ← q10_merge]
    have h1 : ((N : Nat) : ℚ) ≤ ((10 ^ (2*prec) : Nat) : ℚ) := by
      exact_mod_cast le_of_lt hNhi
    rw [q10nat] at h1
    nlinarith [q10_pos (2*t)]
  · have h1 : ((2*(rr:Int) - 1 : Int) : ℚ)^2 < 4*((N : Nat) : ℚ) := by exact_mod_cast hbl
    push_cast at h1 ⊢
    nlinarith [h1, q10_pos (2*t)]
  · have h1 : 4*((N : Nat) : ℚ) < ((2*(rr:Int) + 1 : Int) : ℚ)^2 := by exact_mod_cast hbu
    push_cast at h1 ⊢
    nlinarith [h1, q10_pos (2*t)]

/-! Digit-count and coefficient bounds used to feed the square-root
rounding lemma. -/

lemma ndigits_le_of_le_pow (n k : Nat) (h : n ≤ 10 ^ k) : ndigits n ≤ k + 1 := by
  rcases Nat.eq_zero_or_pos n with h0 | h1
  · subst h0
    have hz : ndigits 0 = 0 := rfl
    omega
  · by_contra hcon
    push_neg at hcon
    have hlb := ndigits_lb n h1
    have hmono : 10 ^ (k+1) ≤ 10 ^ (ndigits n - 1) :=
      Nat.pow_le_pow_right (by norm_num) (by omega)
    have hsucc : 10 ^ k < 10 ^ (k+1) := by
      rw [pow_succ]
      have hp : 0 < 10 ^ k := pow_pos (by norm_num) _
      omega
    omega

lemma addD_coeff_le (x y : Dec) : (addD x y).m.natAbs ≤ 10 ^ prec := by
  unfold addD
  exact roundD_coeff_le _

/-! Evaluation of the hard-coded constants as coefficient-exponent pairs. -/

lemma s_eval : s = ⟨0, 0⟩ := by decide

lemma c_eval : c = ⟨10 ^ 199, -199⟩ := by decide

lemma lam_eval : lam = ⟨5 * 10 ^ 199, -198⟩ := by decide

lemma cod_eval : cOverD c d = ⟨10 ^ 199, -199⟩ := by decide

lemma sod_eval : sOverD s d = ⟨0, 0⟩ := by decide

lemma val_one_pow : val (⟨(10:Int) ^ 199, -199⟩ : Dec) = 1 := by
  rw [val, q10intpow, q10_merge,
    show (((199:Nat)) : Int) + (-199 : Int) = (0:Int) from by norm_num, zpow_zero]

lemma val_cod : val (cOverD c d) = 1 := by
  rw [cod_eval]
  exact val_one_pow

lemma val_c_one : val c = 1 := by
  rw [c_eval]
  exact val_one_pow

lemma val_lam_50 : val lam = 50 := by
  rw [lam_eval, val,
    show ((5 * (10:Int) ^ 199 : Int) : ℚ) = 5 * (10:ℚ) ^ (((199:Nat)) : Int) from by
      rw [Int.cast_mul, q10intpow]
      norm_num,
    mul_assoc, q10_merge,
    show (((199:Nat)) : Int) + (-198 : Int) = (1:Int) from by norm_num, zpow_one]
  norm_num

lemma cod_m_pos : 0 < (cOverD c d).m := by
  rw [cod_eval]
  exact pow_pos (by norm_num) 199

lemma c_m_pos : 0 < c.m := by
  rw [c_eval]
  exact pow_pos (by norm_num) 199

lemma lam_m_pos : 0 < lam.m := by
  rw [lam_eval]
  exact mul_pos (by norm_num) (pow_pos (by norm_num) 199)

lemma s_m_zero : s.m = 0 := by rw [s_eval]

lemma sod_m_zero : (sOverD s d).m = 0 := by rw [sod_eval]

/-! The tau_y pipeline at the hard-coded c, s, lam, d: every intermediate
is a correct rounding of an explicit function of the bound p, which makes
the whole composite monotone analysis go through. -/

lemma tauy_A_roundsTo (p : Dec) :
    RoundsTo 1 (val (addD (cOverD c d) (mulD p (sOverD s d)))) := by
  have hz : (mulD p (sOverD s d)).m = 0 := mulD_m_zero_right _ _ sod_m_zero
  have h := addD_roundsTo (cOverD c d) (mulD p (sOverD s d)) cod_m_pos (le_of_eq hz.symm)
  rw [val_cod, (val_eq_zero_iff _).2 hz, add_zero] at h
  exact h

lemma tauy_A_m_pos (p : Dec) : 0 < (addD (cOverD c d) (mulD p (sOverD s d))).m :=
  addD_m_pos _ _ cod_m_pos (le_of_eq (mulD_m_zero_right _ _ sod_m_zero).symm)

lemma sqlam_m_pos : 0 < (sqD lam).m := sqD_m_pos lam (ne_of_gt lam_m_pos)

lemma term1_roundsTo (p : Dec) :
    RoundsTo (val (sqD (addD (cOverD c d) (mulD p (sOverD s d)))) / val (sqD lam))
      (val (term1Of c s lam d p)) :=
  divD_roundsTo (sqD (addD (cOverD c d) (mulD p (sOverD s d)))) (sqD lam)
    (sqD_m_pos _ (ne_of_gt (tauy_A_m_pos p))) sqlam_m_pos

lemma sqA_roundsTo (p : Dec) :
    RoundsTo (val (addD (cOverD c d) (mulD p (sOverD s d))) *
        val (addD (cOverD c d) (mulD p (sOverD s d))))
      (val (sqD (addD (cOverD c d) (mulD p (sOverD s d))))) :=
  mulD_roundsTo _ _ (tauy_A_m_pos p) (tauy_A_m_pos p)

lemma term1_val_eq (p q : Dec) :
    val (term1Of c s lam d p) = val (term1Of c s lam d q) := by
  have hA : val (addD (cOverD c d) (mulD p (sOverD s d))) =
      val (addD (cOverD c d) (mulD q (sOverD s d))) :=
    roundsTo_eq (tauy_A_roundsTo p) (tauy_A_roundsTo q)
  have hsq : val (sqD (addD (cOverD c d) (mulD p (sOverD s d)))) =
      val (sqD (addD (cOverD c d) (mulD q (sOverD s d)))) := by
    have h1 := sqA_roundsTo p
    have h2 := sqA_roundsTo q
    rw [hA] at h1
    exact roundsTo_eq h1 h2
  have h1 := term1_roundsTo p
  have h2 := term1_roundsTo q
  rw [hsq] at h1
  exact roundsTo_eq h1 h2

lemma term1_m_pos (p : Dec) : 0 < (term1Of c s lam d p).m :=
  divD_m_pos _ _ (sqD_m_pos _ (ne_of_gt (tauy_A_m_pos p))) sqlam_m_pos

lemma tauy_B_roundsTo (p : Dec) (hp : 0 < p.m) :
    RoundsTo (val p) (val (mulD p (cOverD c d))) := by
  have h := mulD_roundsTo p (cOverD c d) hp cod_m_pos
  rw [val_cod, mul_one] at h
  exact h

lemma tauy_B_m_pos (p : Dec) (hp : 0 < p.m) : 0 < (mulD p (cOverD c d)).m :=
  mulD_m_pos _ _ hp cod_m_pos

lemma tauy_C_roundsTo (p : Dec) (hp : 0 < p.m) :
    RoundsTo (val (mulD p (cOverD c d)))
      (val (subD (mulD p (cOverD c d)) (sOverD s d))) := by
  have hz : (⟨-(sOverD s d).m, (sOverD s d).e⟩ : Dec).m = 0 := by
    show -(sOverD s d).m = 0
    rw [sod_m_zero, neg_zero]
  have h := addD_roundsTo (mulD p (cOverD c d)) ⟨-(sOverD s d).m, (sOverD s d).e⟩
    (tauy_B_m_pos p hp) (le_of_eq hz.symm)
  rw [(val_eq_zero_iff _).2 hz, add_zero] at h
  exact h

lemma tauy_C_m_pos (p : Dec) (hp : 0 < p.m) :
    0 < (subD (mulD p (cOverD c d)) (sOverD s d)).m := by
  have hz : (⟨-(sOverD s d).m, (sOverD s d).e⟩ : Dec).m = 0 := by
    show -(sOverD s d).m = 0
    rw [sod_m_zero, neg_zero]
  exact addD_m_pos _ _ (tauy_B_m_pos p hp) (le_of_eq hz.symm)

lemma term2_roundsTo (p : Dec) (hp : 0 < p.m) :
    RoundsTo (val (subD (mulD p (cOverD c d)) (sOverD s d)) *
        val (subD (mulD p (cOverD c d)) (sOverD s d)))
      (val (term2Of c s d p)) :=
  mulD_roundsTo _ _ (tauy_C_m_pos p hp) (tauy_C_m_pos p hp)

lemma term2_m_pos (p : Dec) (hp : 0 < p.m) : 0 < (term2Of c s d p).m :=
  sqD_m_pos _ (ne_of_gt (tauy_C_m_pos p hp))

lemma radicand_roundsTo (p : Dec) (hp : 0 < p.m) :
    RoundsTo (val (term1Of c s lam d p) + val (term2Of c s d p))
      (val (radicandOf c s lam d p)) :=
  addD_roundsTo _ _ (term1_m_pos p) (le_of_lt (term2_m_pos p hp))

lemma radicandOf_m_pos_at (p : Dec) (hp : 0 < p.m) :
    0 < (radicandOf c s lam d p).m :=
  addD_m_pos _ _ (term1_m_pos p) (le_of_lt (term2_m_pos p hp))

lemma radicand_ndigits (p : Dec) :
    ndigits (radicandOf c s lam d p).m.natAbs ≤ 2*prec - 1 := by
  have h1 : (radicandOf c s lam d p).m.natAbs ≤ 10 ^ prec := addD_coeff_le _ _
  have h2 := ndigits_le_of_le_pow _ prec h1
  have hp2 : (2:Nat) ≤ prec := by norm_num [prec]
  omega

lemma sqrtRad_sqrtRounds (p : Dec) (hp : 0 < p.m) :
    SqrtRounds (val (radicandOf c s lam d p)) (val (sqrtD (radicandOf c s lam d p))) :=
  sqrtD_sqrtRounds _ (radicandOf_m_pos_at p hp) (radicand_ndigits p)

lemma sqrtRad_m_pos (p : Dec) (hp : 0 < p.m) :
    0 < (sqrtD (radicandOf c s lam d p)).m :=
  sqrtD_m_pos _ (radicandOf_m_pos_at p hp)

lemma dFactor_roundsTo (p : Dec) (hp : 0 < p.m) :
    RoundsTo (1 / val (sqrtD (radicandOf c s lam d p)))
      (val (dFactorOf c s lam d p)) := by
  have h := divD_roundsTo ⟨1, 0⟩ (sqrtD (radicandOf c s lam d p))
    Int.one_pos (sqrtRad_m_pos p hp)
  have h1 : val (⟨1, 0⟩ : Dec) = 1 := by
    rw [val]
    norm_num
  rw [h1] at h
  exact h

lemma dFactor_m_pos (p : Dec) (hp : 0 < p.m) : 0 < (dFactorOf c s lam d p).m :=
  divD_m_pos _ _ Int.one_pos (sqrtRad_m_pos p hp)

lemma tauy_Cp_roundsTo (p : Dec) : RoundsTo 1 (val (addD c (mulD s p))) := by
  have hz : (mulD s p).m = 0 := mulD_m_zero_left _ _ s_m_zero
  have h := addD_roundsTo c (mulD s p) c_m_pos (le_of_eq hz.symm)
  rw [val_c_one, (val_eq_zero_iff _).2 hz, add_zero] at h
  exact h

lemma tauy_Cp_m_pos (p : Dec) : 0 < (addD c (mulD s p)).m :=
  addD_m_pos _ _ c_m_pos (le_of_eq (mulD_m_zero_left _ _ s_m_zero).symm)

lemma num_roundsTo (p : Dec) (hp : 0 < p.m) :
    RoundsTo (val (addD c (mulD s p)) * val (dFactorOf c s lam d p))
      (val (mulD (addD c (mulD s p)) (dFactorOf c s lam d p))) :=
  mulD_roundsTo _ _ (tauy_Cp_m_pos p) (dFactor_m_pos p hp)

lemma num_m_pos (p : Dec) (hp : 0 < p.m) :
    0 < (mulD (addD c (mulD s p)) (dFactorOf c s lam d p)).m :=
  mulD_m_pos _ _ (tauy_Cp_m_pos p) (dFactor_m_pos p hp)

lemma tau_y_roundsTo (p : Dec) (hp : 0 < p.m) :
    RoundsTo (val (mulD (addD c (mulD s p)) (dFactorOf c s lam d p)) / val lam)
      (val (compute_tau c s lam d p).2) :=
  divD_roundsTo _ _ (num_m_pos p hp) lam_m_pos

lemma tau_y_val_pos (p : Dec) (hp : 0 < p.m) : 0 < val (compute_tau c s lam d p).2 :=
  (val_pos_iff _).2 (divD_m_pos _ _ (num_m_pos p hp) lam_m_pos)

lemma tau_y_val_antitone (p q : Dec) (hp : 0 < p.m) (hq : 0 < q.m)
    (hpq : val p ≤ val q) :
    val (compute_tau c s lam d q).2 ≤ val (compute_tau c s lam d p).2 := by
  have hB : val (mulD p (cOverD c d)) ≤ val (mulD q (cOverD c d)) :=
    roundsTo_mono hpq (tauy_B_roundsTo p hp) (tauy_B_roundsTo q hq)
  have hC : val (subD (mulD p (cOverD c d)) (sOverD s d)) ≤
      val (subD (mulD q (cOverD c d)) (sOverD s d)) :=
    roundsTo_mono hB (tauy_C_roundsTo p hp) (tauy_C_roundsTo q hq)
  have hCppos : 0 < val (subD (mulD p (cOverD c d)) (sOverD s d)) :=
    (val_pos_iff _).2 (tauy_C_m_pos p hp)
  have hsq : val (subD (mulD p (cOverD c d)) (sOverD s d)) *
        val (subD (mulD p (cOverD c d)) (sOverD s d)) ≤
      val (subD (mulD q (cOverD c d)) (sOverD s d)) *
        val (subD (mulD q (cOverD c d)) (sOverD s d)) := by
    nlinarith [hC, hCppos]
  have hT2 : val (term2Of c s d p) ≤ val (term2Of c s d q) :=
    roundsTo_mono hsq (term2_roundsTo p hp) (term2_roundsTo q hq)
  have hRsum : val (term1Of c s lam d p) + val (term2Of c s d p) ≤
      val (term1Of c s lam d q) + val (term2Of c s d q) := by
    rw [term1_val_eq p q]
    linarith
  have hR : val (radicandOf c s lam d p) ≤ val (radicandOf c s lam d q) :=
    roundsTo_mono hRsum (radicand_roundsTo p hp) (radicand_roundsTo q hq)
  have hS : val (sqrtD (radicandOf c s lam d p)) ≤
      val (sqrtD (radicandOf c s lam d q)) :=
    sqrtRounds_mono hR (sqrtRad_sqrtRounds p hp) (sqrtRad_sqrtRounds q hq)
  have hSppos : 0 < val (sqrtD (radicandOf c s lam d p)) :=
    sqrtRounds_pos (sqrtRad_sqrtRounds p hp)
  have hinv : 1 / val (sqrtD (radicandOf c s lam d q)) ≤
      1 / val (sqrtD (radicandOf c s lam d p)) :=
    one_div_le_one_div_of_le hSppos hS
  have hF : val (dFactorOf c s lam d q) ≤ val (dFactorOf c s lam d p) :=
    roundsTo_mono hinv (dFactor_roundsTo q hq) (dFactor_roundsTo p hp)
  have hCpval : val (addD c (mulD s q)) = val (addD c (mulD s p)) :=
    roundsTo_eq (tauy_Cp_roundsTo q) (tauy_Cp_roundsTo p)
  have hCp_pos : 0 < val (addD c (mulD s p)) := (val_pos_iff _).2 (tauy_Cp_m_pos p)
  have hnumv : val (addD c (mulD s q)) * val (dFactorOf c s lam d q) ≤
      val (addD c (mulD s p)) * val (dFactorOf c s lam d p) := by
    rw [hCpval]
    exact mul_le_mul_of_nonneg_left hF (le_of_lt hCp_pos)
  have hnum : val (mulD (addD c (mulD s q)) (dFactorOf c s lam d q)) ≤
      val (mulD (addD c (mulD s p)) (dFactorOf c s lam d p)) :=
    roundsTo_mono hnumv (num_roundsTo q hq) (num_roundsTo p hp)
  have hdiv : val (mulD (addD c (mulD s q)) (dFactorOf c s lam d q)) / val lam ≤
      val (mulD (addD c (mulD s p)) (dFactorOf c s lam d p)) / val lam := by
    rw [val_lam_50]
    have h50 : (0:ℚ) < 50 := by norm_num
    rw [div_le_div_iff h50 h50]
    nlinarith [hnum]
  exact roundsTo_mono hdiv (tau_y_roundsTo q hq) (tau_y_roundsTo p hp)

/-- C6 (amended): the spec says the magnitude of the second tau component
grows with the price bound; in the program it is in fact non-increasing.
For the hard-coded c, s, lambda and derived d, whenever the decimal bounds
satisfy 0 < b1 <= b2, the magnitude of the computed tau_y at b2 is at most
the magnitude at b1. -/
theorem tau_y_abs_antitone (b1 b2 : Dec) (h1 : 0 < b1.m) (hle : val b1 ≤ val b2) :
    |val (compute_tau c s lam d b2).2| ≤ |val (compute_tau c s lam d b1).2| := by
  have h2 : 0 < b2.m := by
    rw [← val_pos_iff]
    exact lt_of_lt_of_le ((val_pos_iff b1).2 h1) hle
  rw [abs_of_pos (tau_y_val_pos b2 h2), abs_of_pos (tau_y_val_pos b1 h1)]
  exact tau_y_val_antitone b1 b2 h1 h2 hle

/-- C6 witness: the amended non-increase theorem applied at the concrete
bounds 1 and 2. -/
theorem tau_y_abs_antitone_witness :
    |val (compute_tau c s lam d ⟨2, 0⟩).2| ≤ |val (compute_tau c s lam d ⟨1, 0⟩).2| :=
  tau_y_abs_antitone ⟨1, 0⟩ ⟨2, 0⟩ Int.one_pos
    (by simp only [val]; norm_num)

lemma ty_one_eval : (compute_tau c s lam d ⟨1, 0⟩).2 = ⟨19996001199600139949618473138573027969370967662326820218851294240188043030944813063085993831593907588477950342112763214461316323162943298982302422741722148272037703106734419454279757704714577954040565, -201⟩ := by decide

lemma ty_two_eval : (compute_tau c s lam d ⟨2, 0⟩).2 = ⟨99995000374968752734128928806499219799569938071879290914595547029516245367740996523281022462535672789606070359170555944465303705358224668253188820579799223666186717837781054464145625554661064290656758, -202⟩ := by decide

/-- C6 counterexample: increasing the bound from 1 to 2 strictly decreases
the magnitude of the computed tau_y, refuting the spec's claim that the
magnitude grows with the bound. -/
theorem tau_y_not_increasing :
    val (⟨1, 0⟩ : Dec) < val (⟨2, 0⟩ : Dec) ∧
    |val (compute_tau c s lam d ⟨2, 0⟩).2| < |val (compute_tau c s lam d ⟨1, 0⟩).2| := by
  constructor
  · simp only [val]
    norm_num
  · rw [ty_one_eval, ty_two_eval,
      show ((-201 : Int)) = -((201 : Nat) : Int) from by norm_num,
      show ((-202 : Int)) = -((202 : Nat) : Int) from by norm_num,
      val_mk_neg_exp, val_mk_neg_exp]
    rw [abs_of_pos (by positivity), abs_of_pos (by positivity)]
    rw [div_lt_div_iff (by positivity) (by positivity)]
    have hZ : (99995000374968752734128928806499219799569938071879290914595547029516245367740996523281022462535672789606070359170555944465303705358224668253188820579799223666186717837781054464145625554661064290656758 : Int) * 10 ^ 201 < (19996001199600139949618473138573027969370967662326820218851294240188043030944813063085993831593907588477950342112763214461316323162943298982302422741722148272037703106734419454279757704714577954040565 : Int) * 10 ^ 202 := by decide
    exact_mod_cast hZ

end ECLP
